import Mathlib

/-!
Verification development for the Metropolis-Light-Transport renderer.

The C++ sources are shallowly embedded: machine floats are idealised as
exact rationals, extended with the two IEEE infinities and NaN where the
code's control flow depends on them (the BVH builder's SAH costs, box
tests and comparisons); 64-bit unsigned arithmetic is `Nat` modulo 2^64;
`std::optional` is `Option`.  Each embedded definition mirrors one source
function and is named after it.
-/

/-- Model of an IEEE-754 float as the renderer uses it: an exact rational
value, one of the two infinities, or NaN.  The arithmetic below follows
the IEEE rules the C++ code relies on (for example `0 * inf = NaN` in the
SAH cost of an empty partition side, and every comparison with NaN is
false). -/
inductive F where
| num (q : ℚ)
| pinf
| ninf
| nan
deriving DecidableEq

namespace F

/-- IEEE negation. -/
def fneg : F → F
| num q => num (-q)
| pinf => ninf
| ninf => pinf
| nan => nan

/-- IEEE addition (inf + (-inf) = NaN, NaN absorbs). -/
def fadd : F → F → F
| nan, _ => nan
| _, nan => nan
| num a, num b => num (a + b)
| num _, pinf => pinf
| num _, ninf => ninf
| pinf, num _ => pinf
| ninf, num _ => ninf
| pinf, pinf => pinf
| ninf, ninf => ninf
| pinf, ninf => nan
| ninf, pinf => nan

/-- IEEE subtraction, as addition of the negation. -/
def fsub (a b : F) : F := fadd a (fneg b)

/-- IEEE multiplication (0 * inf = NaN, NaN absorbs, sign rules). -/
def fmul : F → F → F
| nan, _ => nan
| _, nan => nan
| num a, num b => num (a * b)
| num a, pinf => if 0 < a then pinf else if a < 0 then ninf else nan
| num a, ninf => if 0 < a then ninf else if a < 0 then pinf else nan
| pinf, num b => if 0 < b then pinf else if b < 0 then ninf else nan
| ninf, num b => if 0 < b then ninf else if b < 0 then pinf else nan
| pinf, pinf => pinf
| pinf, ninf => ninf
| ninf, pinf => ninf
| ninf, ninf => pinf

/-- IEEE division.  Division by the rational zero follows the `+0`
divisor rules (the embedded code never produces a negative zero
divisor): `x / 0` is `NaN` for `x = 0` and a signed infinity otherwise. -/
def fdiv : F → F → F
| nan, _ => nan
| _, nan => nan
| num a, num b =>
    if b = 0 then (if 0 < a then pinf else if a < 0 then ninf else nan)
    else num (a / b)
| num _, pinf => num 0
| num _, ninf => num 0
| pinf, num b => if b < 0 then ninf else pinf
| ninf, num b => if b < 0 then pinf else ninf
| pinf, pinf => nan
| pinf, ninf => nan
| ninf, pinf => nan
| ninf, ninf => nan

/-- IEEE strict less-than as a boolean; any comparison with NaN is false. -/
def flt : F → F → Bool
| nan, _ => false
| _, nan => false
| num a, num b => decide (a < b)
| num _, pinf => true
| num _, ninf => false
| pinf, num _ => false
| ninf, num _ => true
| pinf, pinf => false
| ninf, ninf => false
| ninf, pinf => true
| pinf, ninf => false

/-- IEEE less-or-equal as a boolean; any comparison with NaN is false. -/
def fle : F → F → Bool
| nan, _ => false
| _, nan => false
| num a, num b => decide (a ≤ b)
| num _, pinf => true
| num _, ninf => false
| pinf, num _ => false
| ninf, num _ => true
| pinf, pinf => true
| ninf, ninf => true
| ninf, pinf => true
| pinf, ninf => false

instance : Neg F := ⟨fneg⟩
instance : Add F := ⟨fadd⟩
instance : Sub F := ⟨fsub⟩
instance : Mul F := ⟨fmul⟩
instance : Div F := ⟨fdiv⟩

@[simp] theorem fadd_nan (a : F) : a + nan = nan := by cases a <;> rfl

@[simp] theorem nan_fadd (a : F) : nan + a = nan := by cases a <;> rfl

@[simp] theorem num_fadd_num (a b : ℚ) : num a + num b = num (a + b) := rfl

@[simp] theorem num_fsub_num (a b : ℚ) : num a - num b = num (a - b) := by
  show fsub _ _ = _
  simp only [fsub, fneg, fadd, sub_eq_add_neg]

@[simp] theorem num_fmul_num (a b : ℚ) : num a * num b = num (a * b) := rfl

theorem num_fdiv_num (a b : ℚ) (hb : b ≠ 0) :
    num a / num b = num (a / b) := by
  show fdiv _ _ = _
  simp [fdiv, hb]

@[simp] theorem flt_num_num (a b : ℚ) : flt (num a) (num b) = decide (a < b) := rfl

@[simp] theorem fle_num_num (a b : ℚ) : fle (num a) (num b) = decide (a ≤ b) := rfl

theorem flt_ne_nan_left {a b : F} (h : flt a b = true) : a ≠ nan := by
  cases a <;> cases b <;> simp_all [flt]

theorem flt_ne_nan_right {a b : F} (h : flt a b = true) : b ≠ nan := by
  cases a <;> cases b <;> simp_all [flt]

theorem fadd_eq_nan_left {a b : F} (h : a = nan) : a + b = nan := by
  subst h; simp

theorem fadd_eq_nan_right {a b : F} (h : b = nan) : a + b = nan := by
  subst h; simp

theorem flt_asymm {a b : F} (h : flt a b = true) : flt b a = false := by
  cases a <;> cases b <;> simp_all [flt] <;> linarith

theorem flt_trans {a b c : F} (h1 : flt a b = true) (h2 : flt b c = true) :
    flt a c = true := by
  cases a <;> cases b <;> cases c <;> simp_all [flt] <;> linarith

theorem flt_total {a b : F} (ha : a ≠ nan) (hb : b ≠ nan)
    (hab : flt a b = false) (hba : flt b a = false) : a = b := by
  cases a <;> cases b <;> simp_all [flt] <;> linarith

/-- If b is strictly below c while a is not, then a is not strictly below
b either (used for the argmin scan of the BVH traversal). -/
theorem flt_false_of_flt_of_not_flt {a b c : F} (hbc : flt b c = true)
    (hac : flt a c = false) : flt a b = false := by
  by_contra h
  have hab : flt a b = true := by
    cases hx : flt a b
    · exact absurd hx h
    · rfl
  have := flt_trans hab hbc
  rw [this] at hac
  exact Bool.noConfusion hac

end F

/-- Exact 3-component vector of rationals, the idealisation of the glm
float `Vec3` for finite values (positions, normals, directions). -/
structure Vec3Q where
  x : ℚ
  y : ℚ
  z : ℚ
deriving DecidableEq

namespace Vec3Q

def add (a b : Vec3Q) : Vec3Q := ⟨a.x + b.x, a.y + b.y, a.z + b.z⟩

def sub (a b : Vec3Q) : Vec3Q := ⟨a.x - b.x, a.y - b.y, a.z - b.z⟩

def smul (c : ℚ) (a : Vec3Q) : Vec3Q := ⟨c * a.x, c * a.y, c * a.z⟩

/-- Componentwise product (glm `Vec3 * Vec3`). -/
def cmul (a b : Vec3Q) : Vec3Q := ⟨a.x * b.x, a.y * b.y, a.z * b.z⟩

/-- Componentwise division by a scalar. -/
def sdiv (a : Vec3Q) (c : ℚ) : Vec3Q := ⟨a.x / c, a.y / c, a.z / c⟩

def neg (a : Vec3Q) : Vec3Q := ⟨-a.x, -a.y, -a.z⟩

def dot (a b : Vec3Q) : ℚ := a.x * b.x + a.y * b.y + a.z * b.z

def cross (a b : Vec3Q) : Vec3Q :=
  ⟨a.y * b.z - a.z * b.y, a.z * b.x - a.x * b.z, a.x * b.y - a.y * b.x⟩

/-- Squared length (glm `length2`). -/
def length2 (a : Vec3Q) : ℚ := dot a a

/-- Component selection by axis index, the `v[axis]` accessor. -/
def nth (a : Vec3Q) : Fin 3 → ℚ
| 0 => a.x
| 1 => a.y
| 2 => a.z

end Vec3Q

instance : Add Vec3Q := ⟨Vec3Q.add⟩
instance : Sub Vec3Q := ⟨Vec3Q.sub⟩
instance : Neg Vec3Q := ⟨Vec3Q.neg⟩

/-- Exact rational square root; it agrees with the float `sqrt` exactly
on perfect squares of rationals, which is where the embedded theorems
evaluate it (all concrete inputs below have perfect-square lengths). -/
def sqrtQ (q : ℚ) : ℚ :=
  let n := Nat.sqrt q.num.toNat
  let d := Nat.sqrt q.den
  if 0 ≤ q ∧ (n * n : ℤ) = q.num ∧ d * d = q.den then (n : ℚ) / (d : ℚ) else 0

/-- Vector length, `glm::length` (exact on perfect-square `length2`). -/
def lengthQ (a : Vec3Q) : ℚ := sqrtQ a.length2

/-- Direction normalisation, `glm::normalize`. -/
def normalizeQ (a : Vec3Q) : Vec3Q := a.sdiv (lengthQ a)

/-- A ray: origin and direction, from `ray.h`. -/
structure RayQ where
  o : Vec3Q
  d : Vec3Q
deriving DecidableEq

/-- Extended-float 3-vector used for box bounds, which start at the
infinity sentinels (`aabb.h`). -/
structure Vec3F where
  x : F
  y : F
  z : F
deriving DecidableEq

/-- Component selection by axis index for bound vectors. -/
def Vec3F.nth (a : Vec3F) : Fin 3 → F
| 0 => a.x
| 1 => a.y
| 2 => a.z

/-- Embedding of class `AABB` (aabb.h): min and max corners, initialised
to `(+inf, +inf, +inf)` and `(-inf, -inf, -inf)`. -/
structure AABBf where
  bmin : Vec3F
  bmax : Vec3F
deriving DecidableEq

namespace AABBf

/-- The default-constructed (unfit) box. -/
def init : AABBf :=
  ⟨⟨F.pinf, F.pinf, F.pinf⟩, ⟨F.ninf, F.ninf, F.ninf⟩⟩

/-- Embedding of `AABB::fit`: componentwise lowering of min and raising
of max, by the exact comparisons of the source. -/
def fit (b : AABBf) (v : Vec3Q) : AABBf :=
  { bmin :=
      ⟨if F.flt (F.num v.x) b.bmin.x then F.num v.x else b.bmin.x,
       if F.flt (F.num v.y) b.bmin.y then F.num v.y else b.bmin.y,
       if F.flt (F.num v.z) b.bmin.z then F.num v.z else b.bmin.z⟩,
    bmax :=
      ⟨if F.flt b.bmax.x (F.num v.x) then F.num v.x else b.bmax.x,
       if F.flt b.bmax.y (F.num v.y) then F.num v.y else b.bmax.y,
       if F.flt b.bmax.z (F.num v.z) then F.num v.z else b.bmax.z⟩ }

/-- Embedding of `AABB::getSize(axis)`. -/
def getSizeAx (b : AABBf) (ax : Fin 3) : F := b.bmax.nth ax - b.bmin.nth ax

/-- Embedding of `AABB::getMin(axis)`. -/
def getMinAx (b : AABBf) (ax : Fin 3) : F := b.bmin.nth ax

/-- Embedding of `AABB::halfArea`: with sizes `sx, sy, sz` this is
`sx*(sy+sz) + sy*sz`; on the unfit box the IEEE rules give `+inf`. -/
def halfArea (b : AABBf) : F :=
  let sx := b.bmax.x - b.bmin.x
  let sy := b.bmax.y - b.bmin.y
  let sz := b.bmax.z - b.bmin.z
  sx * (sy + sz) + sy * sz

/-- The slab bounds `(t1, t2)` computed by `AABB::intersect` before its
two rejection tests: per-axis entry/exit times, swapped into order, then
combined by max and min exactly as the chains of `if`s in the source. -/
def slabs (b : AABBf) (r : RayQ) : F × F :=
  let tx1 := (b.bmin.x - F.num r.o.x) / F.num r.d.x
  let ty1 := (b.bmin.y - F.num r.o.y) / F.num r.d.y
  let tz1 := (b.bmin.z - F.num r.o.z) / F.num r.d.z
  let tx2 := (b.bmax.x - F.num r.o.x) / F.num r.d.x
  let ty2 := (b.bmax.y - F.num r.o.y) / F.num r.d.y
  let tz2 := (b.bmax.z - F.num r.o.z) / F.num r.d.z
  let p := if F.flt tx2 tx1 then (tx2, tx1) else (tx1, tx2)
  let q := if F.flt ty2 ty1 then (ty2, ty1) else (ty1, ty2)
  let s := if F.flt tz2 tz1 then (tz2, tz1) else (tz1, tz2)
  let t1 := p.1
  let t1 := if F.flt t1 q.1 then q.1 else t1
  let t1 := if F.flt t1 s.1 then s.1 else t1
  let t2 := p.2
  let t2 := if F.flt q.2 t2 then q.2 else t2
  let t2 := if F.flt s.2 t2 then s.2 else t2
  (t1, t2)

/-- Embedding of `AABB::intersect` (aabb.cpp): the slab test.  Returns
the near time `t1` unless the slabs fail to overlap or both times are
negative. -/
def intersect (b : AABBf) (r : RayQ) : Option F :=
  let ts := slabs b r
  if F.flt ts.2 ts.1 then none
  else if F.flt ts.1 (F.num 0) && F.flt ts.2 (F.num 0) then none
  else some ts.1

end AABBf

/-- The 64-bit LCG multiplier of `PCG32::Generator` (random.h). -/
def pcgMultiplier : ℕ := 6364136223846793005

/-- The default `mcgState` constant of `PCG32::Generator` (random.h),
documented in the source as "must be odd". -/
def pcgDefaultState : ℕ := 0xcafef00dd15ea5e5

/-- Embedding of the seeding constructor `Generator(seed) :
mcgState(seed | 1u)`: 64-bit state from an arbitrary seed, forced odd. -/
def pcgSeedState (seed : ℕ) : ℕ := (seed % 2 ^ 64) ||| 1

/-- The state update performed by `Generator::operator()` (random.cpp):
`mcgState = x * Multiplier` in 64-bit arithmetic. -/
def pcgStep (s : ℕ) : ℕ := s * pcgMultiplier % 2 ^ 64

/-- Embedding of `Generator::operator()` (random.cpp): output the
xorshifted high bits and advance the state by the LCG step. -/
def pcgNext (s : ℕ) : ℕ × ℕ :=
  let x := s
  let count := x >>> 61
  let newState := pcgStep x
  let x2 := x ^^^ (x >>> 22)
  ((x2 >>> (22 + count)) % 2 ^ 32, newState)

/-- The state after n draws from the generator. -/
def pcgIter (s : ℕ) : ℕ → ℕ
| 0 => s
| n + 1 => pcgStep (pcgIter s n)

/-- The per-worker MLT counters that feed `MLT::computeScaleFactor`:
`_accumulatedLuminance` and `_numNewPathMutations` of one `MLTProcess`
(mlt.h / mlt.cpp). -/
structure MLTProcessState where
  accumulatedLuminance : ℚ
  numNewPathMutations : ℕ
deriving DecidableEq

/-- Embedding of `MLT::computeScaleFactor` (mlt.cpp, lines 413-421): sum
the per-process luminance and new-path counters, then return
`(totalAccumulatedLuminance / totalNumNewPathMutations) /
_averageSamplesPerPixel` with no guard on either divisor.  The float
divisions are IEEE, so a zero mutation count yields NaN or an infinity,
never a finite number. -/
def computeScaleFactor (processes : List MLTProcessState)
    (averageSamplesPerPixel : ℚ) : F :=
  F.num ((processes.map (fun p => p.accumulatedLuminance)).sum) /
    F.num (((processes.map (fun p => p.numNewPathMutations)).sum : ℕ) : ℚ) /
    F.num averageSamplesPerPixel

/-- Executable rational power with natural exponent (kernel-reducible
model of `std::powf` at integer arguments). -/
def qpowNat (b : ℚ) : ℕ → ℚ
| 0 => 1
| n + 1 => qpowNat b n * b

/-- Executable rational power with integer exponent. -/
def qpow (b : ℚ) (e : ℤ) : ℚ :=
  if 0 ≤ e then qpowNat b e.toNat else qpowNat (1 / b) (-e).toNat

/-- State of `TwoSidedClippedGeometricDistribution` after
`setParameters` (distribution_geometric_clipped.h). -/
structure TwoSidedCGD where
  base : ℚ
  normalization : ℚ
  invNormalization : ℚ
  offset : ℚ
  left : ℤ
  center : ℤ
deriving DecidableEq

/-- Embedding of `TwoSidedClippedGeometricDistribution::setParameters`:
`offset = base^(center-left+1)`, `normalization = 2 - offset -
base^(right-center+1)`, and the cached inverse. -/
def TwoSidedCGD.setParameters (base : ℚ) (left center right : ℤ) :
    TwoSidedCGD :=
  let offset := qpow base (center - left + 1)
  let normalization := 2 - offset - qpow base (right - center + 1)
  ⟨base, normalization, 1 / normalization, offset, left, center⟩

/-- Embedding of `TwoSidedClippedGeometricDistribution::pdf`:
`(1-base) * base^|i-center| * invNormalization`, doubled when `i == 0`
(the literal test in the source; note it is not `i == center`). -/
def TwoSidedCGD.pdf (d : TwoSidedCGD) (i : ℤ) : ℚ :=
  let result := (1 - d.base) * qpowNat d.base (i - d.center).natAbs *
    d.invNormalization
  if i = 0 then result * 2 else result

/-- C/C++ float-to-int conversion: truncation toward zero. -/
def truncQ (q : ℚ) : ℤ := if 0 ≤ q then ⌊q⌋ else ⌈q⌉

/-- Embedding of `std::clamp<int>(v, lo, hi)`:
`v < lo ? lo : (hi < v ? hi : v)`. -/
def clampInt (v lo hi : ℤ) : ℤ := if v < lo then lo else if hi < v then hi else v

/-- Embedding of `clampPixel` (mlt.cpp, lines 17-21): truncate the float
pixel coordinates to int and clamp into `[0, width-1] x [0, height-1]`. -/
def clampPixel (pixel : ℚ × ℚ) (width height : ℕ) : ℤ × ℤ :=
  (clampInt (truncQ pixel.1) 0 ((width : ℤ) - 1),
   clampInt (truncQ pixel.2) 0 ((height : ℤ) - 1))

/-- The out-of-frame rejection test of `MLTProcess::eyePathPerturbation`
(mlt.cpp, lines 187-188): the proposal is rejected only when a
coordinate is strictly greater than the image extent or strictly
negative, so `x = width` itself is accepted. -/
def perturbedPixelAccepted (pixel : ℚ × ℚ) (width height : ℕ) : Bool :=
  !(decide ((width : ℚ) < pixel.1) || decide (pixel.1 < 0) ||
    decide ((height : ℚ) < pixel.2) || decide (pixel.2 < 0))

/-- The pixel coordinates written by one iteration of the mutation loop
in `MLTProcess::accumulate` (mlt.cpp, lines 306-336).  The current pixel
is always written through `clampPixel`; when a proposal exists and its
radiance has luminance at least epsilon, the proposal pixel is written
through `clampPixel` as well. -/
def accumulateStepWrites (currentPixel : ℚ × ℚ)
    (proposal : Option ((ℚ × ℚ) × Bool)) (width height : ℕ) :
    List (ℤ × ℤ) :=
  match proposal with
  | none => [clampPixel currentPixel width height]
  | some (proposalPixel, lumAboveEpsilon) =>
      if lumAboveEpsilon then
        [clampPixel currentPixel width height,
         clampPixel proposalPixel width height]
      else [clampPixel currentPixel width height]

/-- Image pixel grid: dimensions plus the rgb accessor (image.h). -/
structure ImageQ where
  width : ℕ
  height : ℕ
  pix : ℕ → ℕ → Vec3Q

/-- The horizontal texel index computed by `Scene::sampleTexture`
(scene.h, line 116): `int(coord * width) % width` where the left operand
is converted to `std::size_t` (64-bit wrap of the possibly negative
truncated int) before the unsigned modulo, followed by the dead
`if (u < 0) u += width` whose condition can never hold on an unsigned
value. -/
def sampleTexelIndex (coord : ℚ) (size : ℕ) : ℕ :=
  let i : ℤ := truncQ (coord * size)
  let u : ℕ := (((i % (2 ^ 64 : ℤ)).toNat) % size)
  let u : ℕ := if u < 0 then u + size else u
  u

/-- Mathematical wrap of the truncated texel index into the image, the
reading of the claim that indices are "reduced modulo the image
width". -/
def mathTexelIndex (coord : ℚ) (size : ℕ) : ℕ :=
  ((truncQ (coord * size)) % (size : ℤ)).toNat

/-- Embedding of `Scene::sampleTexture` (scene.h, lines 108-122) for a
resolved image: white for an empty image, otherwise the nearest texel
with the repeating (wrapping) index computation of the source. -/
def sampleTextureImage (image : ImageQ) (textureCoord : ℚ × ℚ) : Vec3Q :=
  if image.width = 0 ∨ image.height = 0 then ⟨1, 1, 1⟩
  else
    let u := sampleTexelIndex textureCoord.1 image.width
    let v := sampleTexelIndex textureCoord.2 image.height
    image.pix u v

theorem pcgStep_odd {s : ℕ} (h : s % 2 = 1) : pcgStep s % 2 = 1 := by
  have h2 : (2 : ℕ) ∣ 2 ^ 64 := ⟨2 ^ 63, by norm_num⟩
  unfold pcgStep
  rw [Nat.mod_mod_of_dvd _ h2, Nat.mul_mod, h]
  decide

theorem pcgIter_odd {s : ℕ} (h : s % 2 = 1) (n : ℕ) :
    pcgIter s n % 2 = 1 := by
  induction n with
  | zero => exact h
  | succ k ih => exact pcgStep_odd ih

theorem pcgSeedState_odd (seed : ℕ) : pcgSeedState seed % 2 = 1 := by
  have h : (pcgSeedState seed).testBit 0 = true := by
    simp [pcgSeedState, Nat.testBit_lor]
  simp [Nat.testBit_zero] at h
  exact h

/-- C9: the PCG32 generator state is always odd: the seeding constructor
forces the seed odd with `seed | 1`, the default state constant is odd,
`operator()` replaces the state by `state * 6364136223846793005` modulo
2^64, and therefore the 64-bit state stays odd over any number of
draws, from either the seeded or the default initial state. -/
theorem pcg32_state_always_odd :
    (∀ s, (pcgNext s).2 = pcgStep s) ∧
    pcgDefaultState % 2 = 1 ∧
    (∀ seed n, pcgIter (pcgSeedState seed) n % 2 = 1) ∧
    (∀ n, pcgIter pcgDefaultState n % 2 = 1) := by
  refine ⟨fun s => rfl, by decide, ?_, ?_⟩
  · exact fun seed n => pcgIter_odd (pcgSeedState_odd seed) n
  · exact fun n => pcgIter_odd (by decide) n

theorem fdiv_fdiv_zero_den_not_num (a c q : ℚ) :
    F.num a / F.num 0 / F.num c ≠ F.num q := by
  show F.fdiv (F.fdiv _ _) _ ≠ _
  rcases lt_trichotomy a 0 with h | h | h
  · have h1 : F.fdiv (F.num a) (F.num 0) = F.ninf := by
      simp [F.fdiv, h, not_lt.mpr (le_of_lt h)]
    rw [h1]
    simp only [F.fdiv]
    split_ifs <;> simp
  · subst h
    have h1 : F.fdiv (F.num 0) (F.num 0) = F.nan := by simp [F.fdiv]
    rw [h1]
    simp [F.fdiv]
  · have h1 : F.fdiv (F.num a) (F.num 0) = F.pinf := by simp [F.fdiv, h]
    rw [h1]
    simp only [F.fdiv]
    split_ifs <;> simp

/-- C1: contrary to the claim, `MLT::computeScaleFactor` has no guard:
when the new-path mutation is disabled every process keeps
`_numNewPathMutations = 0`, the sum of the counters is zero, and the
function performs the IEEE division by zero, producing NaN or an
infinity - never the finite 0 or a last-known scale the specification
requires. -/
theorem computeScaleFactor_unguarded (processes : List MLTProcessState)
    (averageSamplesPerPixel : ℚ)
    (hdisabled : ∀ p ∈ processes, p.numNewPathMutations = 0) :
    ∀ q : ℚ, computeScaleFactor processes averageSamplesPerPixel ≠ F.num q := by
  intro q
  have hsum : ((processes.map (fun p => p.numNewPathMutations)).sum : ℕ) = 0 := by
    apply List.sum_eq_zero
    intro x hx
    obtain ⟨p, hp, rfl⟩ := List.mem_map.mp hx
    exact hdisabled p hp
  unfold computeScaleFactor
  rw [hsum]
  rw [Nat.cast_zero]
  exact fdiv_fdiv_zero_den_not_num _ _ q

/-- Witness for C1: one process with a zero new-path counter makes the
scale factor non-finite (in particular, not 0). -/
theorem computeScaleFactor_unguarded_witness :
    (∀ p ∈ [MLTProcessState.mk 0 0], p.numNewPathMutations = 0) ∧
    computeScaleFactor [MLTProcessState.mk 0 0] 1 ≠ F.num 0 :=
  ⟨by decide, computeScaleFactor_unguarded [MLTProcessState.mk 0 0] 1 (by decide) 0⟩

/-- C6: the pdf of `TwoSidedClippedGeometricDistribution` applies the
doubling correction at `k = 0`, not at `k = center`: with
`base = 1/2, left = 0, center = 1, right = 2` the code returns
`pdf 0 = 1/3` and `pdf 2 = 1/6` although both are one step from the
center, so the pmf is not proportional to `base^|k-center|` and the
correction sits at zero instead of the center required by the claim
(and by the distribution's own normalisation, which sums to 1 only if
the doubling lands on the center term). -/
theorem twoSidedPdf_correction_at_zero_not_center :
    (TwoSidedCGD.setParameters (1/2) 0 1 2).center = 1 ∧
    (TwoSidedCGD.setParameters (1/2) 0 1 2).pdf 0 = 1/3 ∧
    (TwoSidedCGD.setParameters (1/2) 0 1 2).pdf 1 = 1/3 ∧
    (TwoSidedCGD.setParameters (1/2) 0 1 2).pdf 2 = 1/6 ∧
    (TwoSidedCGD.setParameters (1/2) 0 1 2).pdf 0 ≠
      (TwoSidedCGD.setParameters (1/2) 0 1 2).pdf 2 ∧
    (TwoSidedCGD.setParameters (1/2) 0 1 2).pdf 0 +
      (TwoSidedCGD.setParameters (1/2) 0 1 2).pdf 1 +
      (TwoSidedCGD.setParameters (1/2) 0 1 2).pdf 2 ≠ 1 := by decide!

theorem clampInt_mem (v lo hi : ℤ) (h : lo ≤ hi) :
    lo ≤ clampInt v lo hi ∧ clampInt v lo hi ≤ hi := by
  unfold clampInt
  split_ifs <;> omega

/-- C10: every buffer write of the MLT mutation loop goes through
`clampPixel`, whose result always lies in
`[0, width-1] x [0, height-1]`; and the out-of-frame test of
`eyePathPerturbation` indeed accepts a perturbed pixel sitting exactly
on the border `x = width`, which `clampPixel` then pulls back inside. -/
theorem accumulate_writes_in_bounds (width height : ℕ) (hw : 1 ≤ width)
    (hh : 1 ≤ height) :
    (∀ (currentPixel : ℚ × ℚ) (proposal : Option ((ℚ × ℚ) × Bool)),
      ∀ c ∈ accumulateStepWrites currentPixel proposal width height,
        0 ≤ c.1 ∧ c.1 < width ∧ 0 ≤ c.2 ∧ c.2 < height) ∧
    (∀ y : ℚ, 0 ≤ y → y ≤ height →
      perturbedPixelAccepted ((width : ℚ), y) width height = true) := by
  constructor
  · intro cur prop c hc
    have hbound : ∀ p : ℚ × ℚ, c = clampPixel p width height →
        0 ≤ c.1 ∧ c.1 < width ∧ 0 ≤ c.2 ∧ c.2 < height := by
      intro p hp
      have h1 := clampInt_mem (truncQ p.1) 0 ((width : ℤ) - 1) (by omega)
      have h2 := clampInt_mem (truncQ p.2) 0 ((height : ℤ) - 1) (by omega)
      rw [hp]
      unfold clampPixel
      exact ⟨h1.1, by omega, h2.1, by omega⟩
    unfold accumulateStepWrites at hc
    rcases prop with _ | ⟨pp, lum⟩
    · simp at hc
      exact hbound cur hc
    · by_cases hl : lum = true
      · subst hl
        simp at hc
        rcases hc with hc | hc
        · exact hbound cur hc
        · exact hbound pp hc
      · have hl2 : lum = false := by
          cases lum
          · rfl
          · exact absurd rfl hl
        subst hl2
        simp at hc
        exact hbound cur hc
  · intro y hy0 hyh
    simp [perturbedPixelAccepted, not_lt, hy0, hyh]

/-- Witness for C10: a 4 x 3 image, a current pixel sitting exactly on
the right border (x = width = 4) and an out-of-range proposal pixel. -/
theorem accumulate_writes_in_bounds_witness :
    1 ≤ 4 ∧ 1 ≤ 3 ∧
    ((∀ (currentPixel : ℚ × ℚ) (proposal : Option ((ℚ × ℚ) × Bool)),
      ∀ c ∈ accumulateStepWrites currentPixel proposal 4 3,
        0 ≤ c.1 ∧ c.1 < 4 ∧ 0 ≤ c.2 ∧ c.2 < 3) ∧
    (∀ y : ℚ, 0 ≤ y → y ≤ 3 →
      perturbedPixelAccepted ((4 : ℚ), y) 4 3 = true)) :=
  ⟨by decide, by decide, by
    have h := accumulate_writes_in_bounds 4 3 (by decide) (by decide)
    constructor
    · exact h.1
    · intro y hy0 hy3
      have := h.2 y hy0 (by exact_mod_cast hy3)
      simpa using this⟩

/-- Counterexample for C8: with image width 3 and texture coordinate
-1/3 the truncated texel index is -1; its mathematical reduction modulo
the width is 2, but the code converts the negative int to an unsigned
64-bit value before the modulo and reads column 0 instead (and its
`if (u < 0)` wrap is dead code on the unsigned index).  The pixel read
is therefore not the texel index reduced modulo the image width. -/
theorem sampleTexelIndex_not_reduced_modulo :
    truncQ ((-1 / 3 : ℚ) * 3) = -1 ∧
    sampleTexelIndex (-1 / 3) 3 = 0 ∧
    mathTexelIndex (-1 / 3) 3 = 2 ∧
    sampleTexelIndex (-1 / 3) 3 ≠ mathTexelIndex (-1 / 3) 3 := by decide!

theorem sampleTexelIndex_lt (coord : ℚ) (size : ℕ) (h : 1 ≤ size) :
    sampleTexelIndex coord size < size := by
  unfold sampleTexelIndex
  simp only [Nat.not_lt_zero, if_false]
  exact Nat.mod_lt _ (by omega)

/-- C8 (amended): the lookup of `Scene::sampleTexture` does always land
inside a non-empty image - the unsigned modulo keeps both indices below
the image extent - even though for negative texel indices the wrapped
index is the 64-bit two's-complement reduction, not the mathematical
modulus. -/
theorem sampleTexture_lookup_lands_in_image (image : ImageQ)
    (textureCoord : ℚ × ℚ) (hw : 1 ≤ image.width) (hh : 1 ≤ image.height) :
    sampleTextureImage image textureCoord =
      image.pix (sampleTexelIndex textureCoord.1 image.width)
        (sampleTexelIndex textureCoord.2 image.height) ∧
    sampleTexelIndex textureCoord.1 image.width < image.width ∧
    sampleTexelIndex textureCoord.2 image.height < image.height := by
  refine ⟨?_, sampleTexelIndex_lt _ _ hw, sampleTexelIndex_lt _ _ hh⟩
  unfold sampleTextureImage
  have : ¬(image.width = 0 ∨ image.height = 0) := by omega
  rw [if_neg this]

/-- Witness for C8: a 4 x 3 image with a negative and an out-of-range
texture coordinate. -/
theorem sampleTexture_lookup_lands_in_image_witness :
    1 ≤ (ImageQ.mk 4 3 (fun _ _ => ⟨0, 0, 0⟩)).width ∧
    1 ≤ (ImageQ.mk 4 3 (fun _ _ => ⟨0, 0, 0⟩)).height ∧
    (sampleTextureImage (ImageQ.mk 4 3 (fun _ _ => ⟨0, 0, 0⟩)) (-1/2, 7/2) =
      (ImageQ.mk 4 3 (fun _ _ => ⟨0, 0, 0⟩)).pix
        (sampleTexelIndex (-1/2) 4) (sampleTexelIndex (7/2) 3) ∧
    sampleTexelIndex (-1/2) 4 < 4 ∧ sampleTexelIndex (7/2) 3 < 3) :=
  ⟨by decide, by decide,
   sampleTexture_lookup_lands_in_image (ImageQ.mk 4 3 (fun _ _ => ⟨0, 0, 0⟩))
     (-1/2, 7/2) (by decide) (by decide)⟩

/-- Vertex connection tag (path.h). -/
inductive ConnectionType where
| Origin
| Implicit
| Explicit
deriving DecidableEq

/-- Vertex bounce tag (path.h). -/
inductive BounceType where
| None
| Diffuse
| Reflective
| Refractive
deriving DecidableEq

/-- Embedding of `Path::Vertex` (path.h). -/
structure Vertex where
  connectionType : ConnectionType
  bounceType : BounceType
  position : Vec3Q
  normal : Vec3Q
  geometricNormal : Vec3Q
  textureCoord : ℚ × ℚ
  materialIdx : Option ℕ
  lightIdx : Option ℕ
deriving DecidableEq

/-- The all-zero default vertex (value-initialised fields in C++). -/
def vertexZero : Vertex :=
  ⟨.Origin, .None, ⟨0, 0, 0⟩, ⟨0, 0, 0⟩, ⟨0, 0, 0⟩, (0, 0), none, none⟩

/-- Embedding of `Path` (path.h): the vertex array restricted to its
first `_pathLength` entries. -/
structure PathQ where
  vertices : List Vertex
deriving DecidableEq

/-- The `Path::MaxLength` constant. -/
def PathQ.MaxLength : ℕ := 10

/-- The `Path::TerminationProbability` constant. -/
def PathQ.TerminationProbability : ℚ := 0.35826

/-- One probe of the scene and RNG made by `Path::addBounce`: either the
ray misses the scene, or it hits a vertex (after the back-face normal
flip) and the Russian-roulette draw either terminates the path or the
material samples a new direction with its bounce tag. -/
inductive BounceOutcome where
| miss
| hit (vertex : Vertex) (terminated : Bool) (bounce : BounceType)
    (nextRay : RayQ)

/-- Embedding of `Path::addBounce` (path.cpp, lines 83-113): on a miss
nothing is appended and no ray is returned; on a hit the `Implicit`
vertex is appended with bounce tag `None`; termination returns no ray,
otherwise the sampled bounce tag is written to the appended vertex and
the new ray is returned. -/
def PathQ.addBounce (p : PathQ) (o : BounceOutcome) : PathQ × Option RayQ :=
  match o with
  | .miss => (p, none)
  | .hit v terminated bounce nextRay =>
      let appended : Vertex :=
        { v with connectionType := .Implicit, bounceType := .None }
      if terminated then (⟨p.vertices ++ [appended]⟩, none)
      else (⟨p.vertices ++ [{ appended with bounceType := bounce }]⟩,
            some nextRay)

/-- The bounce loop of `Path::createRandomEyePath` (path.cpp, lines
133-139): while the length is below `MaxLength`, add a bounce and stop
as soon as no continuation ray comes back.  Each continuing iteration
grows the path by one vertex, so `MaxLength` rounds of fuel reproduce
the C++ `while` loop exactly. -/
def eyePathLoop (oracle : ℕ → BounceOutcome) :
    ℕ → ℕ → PathQ → PathQ
| 0, _, p => p
| fuel + 1, k, p =>
    if p.vertices.length < PathQ.MaxLength then
      match p.addBounce (oracle k) with
      | (p2, none) => p2
      | (p2, some _) => eyePathLoop oracle fuel (k + 1) p2
    else p

/-- Embedding of `Path::createRandomEyePath` (path.cpp, lines 124-141):
vertex 0 is the `Origin` camera vertex at the ray origin, then bounces
are added until termination or the length cap. -/
def PathQ.createRandomEyePath (oracle : ℕ → BounceOutcome) (ray : RayQ) :
    PathQ :=
  eyePathLoop oracle PathQ.MaxLength 0
    ⟨[{ vertexZero with
          connectionType := .Origin,
          bounceType := .None,
          position := ray.o }]⟩

/-- Embedding of `Light` (scene.h): a point light or a mesh light. -/
inductive LightQ where
| point (position : Vec3Q) (wattage : Vec3Q)
| mesh (meshIdx : ℕ) (primitiveIdx : ℕ)
deriving DecidableEq

/-- Embedding of `chooseRandomVertexOnLight` (path.cpp, lines 50-68):
for a point light an `Explicit` vertex at the light position carrying
the light index; for a mesh light the area-sampled triangle vertex
(provided by the sampling oracle) with the light index attached. -/
def chooseRandomVertexOnLight (lights : List LightQ) (lightIdx : ℕ)
    (meshSampleOracle : Vertex) : Vertex :=
  match lights.getD lightIdx (.point ⟨0, 0, 0⟩ ⟨0, 0, 0⟩) with
  | .point position _ =>
      { vertexZero with
          connectionType := .Explicit,
          position := position,
          lightIdx := some lightIdx }
  | .mesh _ _ =>
      { meshSampleOracle with
          connectionType := .Explicit,
          lightIdx := some lightIdx }

/-- Embedding of `Path::createRandomLightPath` (path.cpp, lines 73-81):
an empty path when the scene has no lights, otherwise exactly one
`Explicit` vertex on a uniformly chosen light. -/
def PathQ.createRandomLightPath (lights : List LightQ) (draw : ℕ)
    (meshSampleOracle : Vertex) : PathQ :=
  if lights.isEmpty then ⟨[]⟩
  else
    ⟨[chooseRandomVertexOnLight lights (draw % lights.length)
        meshSampleOracle]⟩

theorem addBounce_length (p : PathQ) (o : BounceOutcome) :
    p.vertices.length ≤ (p.addBounce o).1.vertices.length ∧
    (p.addBounce o).1.vertices.length ≤ p.vertices.length + 1 := by
  unfold PathQ.addBounce
  rcases o with _ | ⟨v, term, bounce, ray⟩
  · exact ⟨le_refl _, Nat.le_succ _⟩
  · by_cases ht : term = true
    · subst ht; simp
    · have : term = false := by
        cases term
        · rfl
        · exact absurd rfl ht
      subst this; simp

theorem eyePathLoop_length_bounds (oracle : ℕ → BounceOutcome) :
    ∀ (fuel k : ℕ) (p : PathQ),
      1 ≤ p.vertices.length → p.vertices.length ≤ PathQ.MaxLength →
      1 ≤ (eyePathLoop oracle fuel k p).vertices.length ∧
      (eyePathLoop oracle fuel k p).vertices.length ≤ PathQ.MaxLength := by
  intro fuel
  induction fuel with
  | zero => intro k p h1 h2; exact ⟨h1, h2⟩
  | succ n ih =>
      intro k p h1 h2
      unfold eyePathLoop
      by_cases hlt : p.vertices.length < PathQ.MaxLength
      · rw [if_pos hlt]
        split
        · next p2 heq =>
            have hb := addBounce_length p (oracle k)
            rw [heq] at hb
            simp only [] at hb
            exact ⟨le_trans h1 hb.1, by omega⟩
        · next p2 ray heq =>
            have hb := addBounce_length p (oracle k)
            rw [heq] at hb
            simp only [] at hb
            exact ih (k + 1) p2 (le_trans h1 hb.1) (by omega)
      · rw [if_neg hlt]
        exact ⟨h1, h2⟩

/-- C5 (amended): every eye path has between 1 and `MaxLen = 10`
vertices, for every scene and random behaviour; but a light path has at
most one vertex, and in a scene with zero lights
`createRandomLightPath` returns the empty path of length 0, not a path
of length at least 1. -/
theorem path_length_bounds :
    (∀ (oracle : ℕ → BounceOutcome) (ray : RayQ),
      1 ≤ (PathQ.createRandomEyePath oracle ray).vertices.length ∧
      (PathQ.createRandomEyePath oracle ray).vertices.length ≤
        PathQ.MaxLength) ∧
    (∀ (lights : List LightQ) (draw : ℕ) (meshSampleOracle : Vertex),
      (PathQ.createRandomLightPath lights draw
          meshSampleOracle).vertices.length =
        if lights.isEmpty then 0 else 1) := by
  constructor
  · intro oracle ray
    exact eyePathLoop_length_bounds oracle PathQ.MaxLength 0 _
      (by simp) (by simp [PathQ.MaxLength])
  · intro lights draw meshSampleOracle
    unfold PathQ.createRandomLightPath
    by_cases h : lights.isEmpty
    · simp [h]
    · simp [h]

/-- Counterexample for C5: in a scene with zero lights (legal per the
specification) the light path returned by `createRandomLightPath` has
length 0, refuting the claimed lower bound of 1. -/
theorem createRandomLightPath_no_lights_length_zero :
    (PathQ.createRandomLightPath [] 0 vertexZero).vertices.length = 0 ∧
    ¬(1 ≤ (PathQ.createRandomLightPath [] 0 vertexZero).vertices.length) := by
  decide!

/-- The float constant `PI` from math.h, idealised as the decimal
rational of its source literal. -/
def piQ : ℚ := 3.14159265358979

/-- Embedding of `MaterialData` (material.h) restricted to the fields
that `Material::bsdf` reads: the base color factor (its xyz part) and
the optional base color texture index. -/
structure MaterialDataQ where
  baseColorFactor : Vec3Q
  baseColorTextureIdx : Option ℕ
deriving DecidableEq

/-- The default-constructed `MaterialData`: base color (1,1,1), no
texture (`Scene::DefaultMaterialData`). -/
def defaultMaterialDataQ : MaterialDataQ := ⟨⟨1, 1, 1⟩, none⟩

/-- The scene pieces consulted by `Material::bsdf` and the evaluators:
texture table (image indices), images, and materials. -/
structure SceneQ where
  textures : List ℕ
  images : List ImageQ
  materials : List MaterialDataQ

/-- Embedding of `Scene::sampleTexture` (scene.h): resolve the texture
to its image and sample it; the asserted index bounds of the source are
modelled by total lookups with defaults that in-bounds calls never
reach. -/
def SceneQ.sampleTexture (s : SceneQ) (textureIdx : ℕ)
    (textureCoord : ℚ × ℚ) : Vec3Q :=
  let imageIdx := s.textures.getD textureIdx 0
  let image := s.images.getD imageIdx ⟨0, 0, fun _ _ => ⟨1, 1, 1⟩⟩
  sampleTextureImage image textureCoord

/-- Embedding of `Scene::getMaterial` (scene.h): the default material
when no index is present. -/
def SceneQ.getMaterial (s : SceneQ) (materialIdx : Option ℕ) :
    MaterialDataQ :=
  match materialIdx with
  | none => defaultMaterialDataQ
  | some i => s.materials.getD i defaultMaterialDataQ

/-- Embedding of `Material::bsdf` (material.cpp, part_001 lines
104-111): `(baseColorFactor.xyz / PI)`, multiplied by the base color
texture sampled at the given vertex's texture coordinate when the
material has one. -/
def materialBsdf (s : SceneQ) (m : MaterialDataQ) (vertex : Vertex) :
    Vec3Q :=
  let result := m.baseColorFactor.sdiv piQ
  match m.baseColorTextureIdx with
  | none => result
  | some t => result.cmul (s.sampleTexture t vertex.textureCoord)

/-- Embedding of `evaluateExplicit` (path.cpp, lines 216-240), exactly
as written: note that the second factor is `material2.bsdf(x2)` - the
material of `y2` evaluated at `x2`'s vertex (hence `x2`'s texture
coordinate) - as in the source. -/
def evaluateExplicit (s : SceneQ) (x1 x2 y1 y2 : Vertex) : Vec3Q :=
  let invDist := 1 / lengthQ (y2.position - x2.position)
  let x2toy2 := normalizeQ (y2.position - x2.position)
  let material1 := s.getMaterial x2.materialIdx
  let material2 := s.getMaterial y2.materialIdx
  let result := (materialBsdf s material1 x2).cmul (materialBsdf s material2 x2)
  let result := result.smul (invDist * invDist)
  let result := result.smul (max 0 (Vec3Q.dot x2.normal x2toy2))
  let result := result.smul (max 0 (Vec3Q.dot y2.normal (Vec3Q.neg x2toy2)))
  result

/-- The explicit-connection factor as claim C4 states it (bsdf of
vertex i+1 evaluated at vertex i+1): identical to `evaluateExplicit`
except that the second BSDF is evaluated at `y2`. -/
def evaluateExplicitClaimed (s : SceneQ) (x1 x2 y1 y2 : Vertex) : Vec3Q :=
  let invDist := 1 / lengthQ (y2.position - x2.position)
  let x2toy2 := normalizeQ (y2.position - x2.position)
  let material1 := s.getMaterial x2.materialIdx
  let material2 := s.getMaterial y2.materialIdx
  let result := (materialBsdf s material1 x2).cmul (materialBsdf s material2 y2)
  let result := result.smul (invDist * invDist)
  let result := result.smul (max 0 (Vec3Q.dot x2.normal x2toy2))
  let result := result.smul (max 0 (Vec3Q.dot y2.normal (Vec3Q.neg x2toy2)))
  result

/-- A 2 x 1 texture whose left texel is white and right texel black. -/
def c4Image : ImageQ :=
  ⟨2, 1, fun u _ => if u = 0 then ⟨1, 1, 1⟩ else ⟨0, 0, 0⟩⟩

/-- Scene for the C4 evaluation: material 0 untextured, material 1
carrying the 2 x 1 texture. -/
def c4Scene : SceneQ :=
  ⟨[0], [c4Image], [⟨⟨1, 1, 1⟩, none⟩, ⟨⟨1, 1, 1⟩, some 0⟩]⟩

/-- Vertex i of the explicit connection (untextured material 0). -/
def c4x2 : Vertex :=
  { vertexZero with
      connectionType := .Implicit, bounceType := .Diffuse,
      position := ⟨0, 0, 0⟩, normal := ⟨1, 0, 0⟩,
      textureCoord := (0, 0), materialIdx := some 0 }

/-- Vertex i+1 of the explicit connection (textured material 1, with a
texture coordinate that samples the black texel). -/
def c4y2 : Vertex :=
  { vertexZero with
      connectionType := .Explicit, bounceType := .None,
      position := ⟨1, 0, 0⟩, normal := ⟨-1, 0, 0⟩,
      textureCoord := (1/2, 0), materialIdx := some 1 }

/-- Predecessor of vertex i. -/
def c4x1 : Vertex := { vertexZero with position := ⟨-1, 0, 0⟩ }

/-- Predecessor of vertex i+1. -/
def c4y1 : Vertex := { vertexZero with position := ⟨2, 0, 0⟩ }

/-- C4: the code evaluates the second BSDF at the wrong vertex.  At a
connection whose endpoints carry different texture coordinates (x2
samples the white texel, y2 the black texel of y2's material texture),
`evaluateExplicit` as written (`material2.bsdf(x2)`) returns a nonzero
color, while the factor the claim and spec describe (bsdf of vertex i+1
evaluated at vertex i+1) is zero: the two formulas disagree. -/
theorem evaluateExplicit_bsdf_at_wrong_vertex :
    evaluateExplicitClaimed c4Scene c4x1 c4x2 c4y1 c4y2 = ⟨0, 0, 0⟩ ∧
    evaluateExplicit c4Scene c4x1 c4x2 c4y1 c4y2 ≠ ⟨0, 0, 0⟩ ∧
    evaluateExplicit c4Scene c4x1 c4x2 c4y1 c4y2 ≠
      evaluateExplicitClaimed c4Scene c4x1 c4x2 c4y1 c4y2 := by decide!

/-- Componentwise minimum of rational vectors. -/
def vmin (a b : Vec3Q) : Vec3Q := ⟨min a.x b.x, min a.y b.y, min a.z b.z⟩

/-- Componentwise maximum of rational vectors. -/
def vmax (a b : Vec3Q) : Vec3Q := ⟨max a.x b.x, max a.y b.y, max a.z b.z⟩

/-- A finite box with rational corners, as an `AABBf`. -/
def qbox (mn mx : Vec3Q) : AABBf :=
  ⟨⟨F.num mn.x, F.num mn.y, F.num mn.z⟩, ⟨F.num mx.x, F.num mx.y, F.num mx.z⟩⟩

/-- Folding `AABB::fit` over a point list, as `BVH` construction and the
loaders do. -/
def fitListFrom (b : AABBf) (ps : List Vec3Q) : AABBf :=
  ps.foldl AABBf.fit b

/-- Fitting a list of points into a default-constructed box. -/
def fitList (ps : List Vec3Q) : AABBf := fitListFrom AABBf.init ps

theorem fmin_ite (a b : ℚ) :
    (if b < a then F.num b else F.num a) = F.num (min a b) := by
  by_cases h : b < a
  · rw [if_pos h, min_eq_right (le_of_lt h)]
  · rw [if_neg h, min_eq_left (not_lt.mp h)]

theorem fmax_ite (a b : ℚ) :
    (if a < b then F.num b else F.num a) = F.num (max a b) := by
  by_cases h : a < b
  · rw [if_pos h, max_eq_right (le_of_lt h)]
  · rw [if_neg h, max_eq_left (not_lt.mp h)]

theorem fit_qbox (mn mx v : Vec3Q) :
    (qbox mn mx).fit v = qbox (vmin mn v) (vmax mx v) := by
  unfold AABBf.fit qbox vmin vmax
  simp only [F.flt_num_num, decide_eq_true_eq, fmin_ite, fmax_ite]

/-- Componentwise order on rational vectors. -/
def vle (a b : Vec3Q) : Prop := a.x ≤ b.x ∧ a.y ≤ b.y ∧ a.z ≤ b.z

theorem vle_refl (a : Vec3Q) : vle a a := ⟨le_refl _, le_refl _, le_refl _⟩

theorem vle_trans {a b c : Vec3Q} (h1 : vle a b) (h2 : vle b c) : vle a c :=
  ⟨le_trans h1.1 h2.1, le_trans h1.2.1 h2.2.1, le_trans h1.2.2 h2.2.2⟩

theorem vmin_le_left (a b : Vec3Q) : vle (vmin a b) a :=
  ⟨min_le_left _ _, min_le_left _ _, min_le_left _ _⟩

theorem vmin_le_right (a b : Vec3Q) : vle (vmin a b) b :=
  ⟨min_le_right _ _, min_le_right _ _, min_le_right _ _⟩

theorem le_vmax_left (a b : Vec3Q) : vle a (vmax a b) :=
  ⟨le_max_left _ _, le_max_left _ _, le_max_left _ _⟩

theorem le_vmax_right (a b : Vec3Q) : vle b (vmax a b) :=
  ⟨le_max_right _ _, le_max_right _ _, le_max_right _ _⟩

theorem foldl_vmin_le_init : ∀ (ps : List Vec3Q) (mn : Vec3Q),
    vle (ps.foldl vmin mn) mn := by
  intro ps
  induction ps with
  | nil => intro mn; exact vle_refl mn
  | cons a t ih =>
      intro mn
      rw [List.foldl_cons]
      exact vle_trans (ih (vmin mn a)) (vmin_le_left mn a)

theorem foldl_vmin_le_mem : ∀ (ps : List Vec3Q) (mn q : Vec3Q),
    q ∈ ps → vle (ps.foldl vmin mn) q := by
  intro ps
  induction ps with
  | nil => intro mn q hq; exact absurd hq (List.not_mem_nil q)
  | cons a t ih =>
      intro mn q hq
      rw [List.foldl_cons]
      rcases List.mem_cons.mp hq with rfl | hq
      · exact vle_trans (foldl_vmin_le_init t (vmin mn q)) (vmin_le_right mn q)
      · exact ih (vmin mn a) q hq

theorem init_le_foldl_vmax : ∀ (ps : List Vec3Q) (mx : Vec3Q),
    vle mx (ps.foldl vmax mx) := by
  intro ps
  induction ps with
  | nil => intro mx; exact vle_refl mx
  | cons a t ih =>
      intro mx
      rw [List.foldl_cons]
      exact vle_trans (le_vmax_left mx a) (ih (vmax mx a))

theorem mem_le_foldl_vmax : ∀ (ps : List Vec3Q) (mx q : Vec3Q),
    q ∈ ps → vle q (ps.foldl vmax mx) := by
  intro ps
  induction ps with
  | nil => intro mx q hq; exact absurd hq (List.not_mem_nil q)
  | cons a t ih =>
      intro mx q hq
      rw [List.foldl_cons]
      rcases List.mem_cons.mp hq with rfl | hq
      · exact vle_trans (le_vmax_right mx q) (init_le_foldl_vmax t (vmax mx q))
      · exact ih (vmax mx a) q hq

theorem fitListFrom_qbox : ∀ (ps : List Vec3Q) (mn mx : Vec3Q),
    fitListFrom (qbox mn mx) ps =
      qbox (ps.foldl vmin mn) (ps.foldl vmax mx) := by
  intro ps
  induction ps with
  | nil => intro mn mx; rfl
  | cons a t ih =>
      intro mn mx
      unfold fitListFrom at ih ⊢
      rw [List.foldl_cons, fit_qbox, List.foldl_cons, List.foldl_cons]
      exact ih (vmin mn a) (vmax mx a)

theorem fitList_cons (p : Vec3Q) (ps : List Vec3Q) :
    fitList (p :: ps) = qbox (ps.foldl vmin p) (ps.foldl vmax p) := by
  unfold fitList
  have h0 : AABBf.init.fit p = qbox p p := rfl
  show fitListFrom AABBf.init (p :: ps) = _
  unfold fitListFrom
  rw [List.foldl_cons, h0]
  have := fitListFrom_qbox ps p p
  unfold fitListFrom at this
  rw [this]

theorem fswap_ite (a b : ℚ) :
    ((if b < a then ((F.num b), (F.num a)) else ((F.num a), (F.num b)))
      : F × F) = (F.num (min a b), F.num (max a b)) := by
  by_cases h : b < a
  · rw [if_pos h, min_eq_right (le_of_lt h), max_eq_left (le_of_lt h)]
  · rw [if_neg h, min_eq_left (not_lt.mp h), max_eq_right (not_lt.mp h)]

theorem slabs_qbox (mn mx : Vec3Q) (r : RayQ) (hx : r.d.x ≠ 0)
    (hy : r.d.y ≠ 0) (hz : r.d.z ≠ 0) :
    (qbox mn mx).slabs r =
      (F.num (max (max
          (min ((mn.x - r.o.x) / r.d.x) ((mx.x - r.o.x) / r.d.x))
          (min ((mn.y - r.o.y) / r.d.y) ((mx.y - r.o.y) / r.d.y)))
          (min ((mn.z - r.o.z) / r.d.z) ((mx.z - r.o.z) / r.d.z))),
       F.num (min (min
          (max ((mn.x - r.o.x) / r.d.x) ((mx.x - r.o.x) / r.d.x))
          (max ((mn.y - r.o.y) / r.d.y) ((mx.y - r.o.y) / r.d.y)))
          (max ((mn.z - r.o.z) / r.d.z) ((mx.z - r.o.z) / r.d.z)))) := by
  unfold AABBf.slabs qbox
  simp only [F.num_fsub_num, F.num_fdiv_num _ _ hx, F.num_fdiv_num _ _ hy,
    F.num_fdiv_num _ _ hz, F.flt_num_num, decide_eq_true_eq, fswap_ite,
    fmin_ite, fmax_ite]

theorem axis_slab_bound (mn mx o d t : ℚ) (hd : d ≠ 0)
    (h1 : mn ≤ o + t * d) (h2 : o + t * d ≤ mx) :
    min ((mn - o) / d) ((mx - o) / d) ≤ t ∧
    t ≤ max ((mn - o) / d) ((mx - o) / d) := by
  rcases hd.lt_or_lt with hneg | hpos
  · constructor
    · refine min_le_of_right_le ?_
      rw [div_le_iff_of_neg hneg]
      linarith
    · refine le_max_of_le_left ?_
      rw [le_div_iff_of_neg hneg]
      linarith
  · constructor
    · refine min_le_of_left_le ?_
      rw [div_le_iff₀ hpos]
      linarith
    · refine le_max_of_le_right ?_
      rw [le_div_iff₀ hpos]
      linarith

/-- Counterexample for C7: fit the two points (0,0,0) and (2,2,2); the
ray from (1,1,1) along (1,1,1) passes through the fitted point (2,2,2)
at parameter 1 >= 0 and its origin lies inside the box, so
`AABB::intersect` reports a hit whose near time is -1, which is
negative - the claimed "returned near-t >= 0" fails. -/
theorem aabb_intersect_through_point_negative_t :
    (Vec3Q.mk 1 1 1) + Vec3Q.smul 1 (Vec3Q.mk 1 1 1) = Vec3Q.mk 2 2 2 ∧
    ((AABBf.init.fit ⟨0, 0, 0⟩).fit ⟨2, 2, 2⟩).intersect
      ⟨⟨1, 1, 1⟩, ⟨1, 1, 1⟩⟩ = some (F.num (-1)) ∧
    ¬(0 : ℚ) ≤ -1 := by decide!

/-- C7 (amended): fitting a nonempty set of points and shooting a ray
(with nonzero direction components) through one of the fitted points at
parameter tstar >= 0 always yields a hit, whose returned near time is at
most tstar but may be negative when the origin is inside the box; and
`AABB::intersect` returns the near slab time only when the slab
intervals overlap and at least one of the two slab times is
non-negative. -/
theorem aabb_fit_intersect_round_trip :
    (∀ (p : Vec3Q) (ps : List Vec3Q) (q : Vec3Q) (r : RayQ) (tstar : ℚ),
      q ∈ p :: ps → r.d.x ≠ 0 → r.d.y ≠ 0 → r.d.z ≠ 0 → 0 ≤ tstar →
      q = r.o + Vec3Q.smul tstar r.d →
      ∃ t : ℚ, (fitList (p :: ps)).intersect r = some (F.num t) ∧
        t ≤ tstar) ∧
    (∀ (b : AABBf) (r : RayQ) (t : F), b.intersect r = some t →
      t = (b.slabs r).1 ∧ F.flt (b.slabs r).2 (b.slabs r).1 = false ∧
      (F.flt (b.slabs r).1 (F.num 0) = false ∨
       F.flt (b.slabs r).2 (F.num 0) = false)) := by
  constructor
  · intro p ps q r tstar hq hx hy hz ht hqe
    have hmn : vle (ps.foldl vmin p) q := by
      rcases List.mem_cons.mp hq with rfl | hq2
      · exact foldl_vmin_le_init ps q
      · exact foldl_vmin_le_mem ps p q hq2
    have hmx : vle q (ps.foldl vmax p) := by
      rcases List.mem_cons.mp hq with rfl | hq2
      · exact init_le_foldl_vmax ps q
      · exact mem_le_foldl_vmax ps p q hq2
    have hqx : q.x = r.o.x + tstar * r.d.x := by
      rw [hqe]; rfl
    have hqy : q.y = r.o.y + tstar * r.d.y := by
      rw [hqe]; rfl
    have hqz : q.z = r.o.z + tstar * r.d.z := by
      rw [hqe]; rfl
    obtain ⟨hxl, hxu⟩ := axis_slab_bound (ps.foldl vmin p).x
      (ps.foldl vmax p).x r.o.x r.d.x tstar hx (by rw [← hqx]; exact hmn.1)
      (by rw [← hqx]; exact hmx.1)
    obtain ⟨hyl, hyu⟩ := axis_slab_bound (ps.foldl vmin p).y
      (ps.foldl vmax p).y r.o.y r.d.y tstar hy (by rw [← hqy]; exact hmn.2.1)
      (by rw [← hqy]; exact hmx.2.1)
    obtain ⟨hzl, hzu⟩ := axis_slab_bound (ps.foldl vmin p).z
      (ps.foldl vmax p).z r.o.z r.d.z tstar hz (by rw [← hqz]; exact hmn.2.2)
      (by rw [← hqz]; exact hmx.2.2)
    rw [fitList_cons]
    unfold AABBf.intersect
    rw [slabs_qbox _ _ r hx hy hz]
    set ax := min (((ps.foldl vmin p).x - r.o.x) / r.d.x)
      (((ps.foldl vmax p).x - r.o.x) / r.d.x) with hax
    set ay := min (((ps.foldl vmin p).y - r.o.y) / r.d.y)
      (((ps.foldl vmax p).y - r.o.y) / r.d.y) with hay
    set az := min (((ps.foldl vmin p).z - r.o.z) / r.d.z)
      (((ps.foldl vmax p).z - r.o.z) / r.d.z) with haz
    set bx := max (((ps.foldl vmin p).x - r.o.x) / r.d.x)
      (((ps.foldl vmax p).x - r.o.x) / r.d.x) with hbx
    set by' := max (((ps.foldl vmin p).y - r.o.y) / r.d.y)
      (((ps.foldl vmax p).y - r.o.y) / r.d.y) with hby
    set bz := max (((ps.foldl vmin p).z - r.o.z) / r.d.z)
      (((ps.foldl vmax p).z - r.o.z) / r.d.z) with hbz
    have hT1 : max (max ax ay) az ≤ tstar := by
      exact max_le (max_le hxl hyl) hzl
    have hT2 : tstar ≤ min (min bx by') bz := by
      exact le_min (le_min hxu hyu) hzu
    refine ⟨max (max ax ay) az, ?_, hT1⟩
    simp only [F.flt_num_num, decide_eq_true_eq]
    rw [if_neg (by simp only [not_lt]; linarith)]
    have hsecond :
        (decide (max (max ax ay) az < 0) && decide (min (min bx by') bz < 0))
          = false := by
      have : ¬ min (min bx by') bz < 0 := by linarith
      simp [this]
    rw [if_neg (by simp_all)]
  · intro b r t hbt
    unfold AABBf.intersect at hbt
    by_cases h1 : F.flt (b.slabs r).2 (b.slabs r).1 = true
    · rw [if_pos h1] at hbt
      exact absurd hbt (Option.noConfusion)
    · have h1f : F.flt (b.slabs r).2 (b.slabs r).1 = false :=
        Bool.eq_false_iff.mpr h1
      rw [if_neg h1] at hbt
      by_cases h2 : (F.flt (b.slabs r).1 (F.num 0) &&
          F.flt (b.slabs r).2 (F.num 0)) = true
      · rw [if_pos h2] at hbt
        exact absurd hbt (Option.noConfusion)
      · rw [if_neg h2] at hbt
        have ht := Option.some.inj hbt
        refine ⟨ht.symm, h1f, ?_⟩
        cases hA : F.flt (b.slabs r).1 (F.num 0)
        · exact Or.inl rfl
        · cases hB : F.flt (b.slabs r).2 (F.num 0)
          · exact Or.inr rfl
          · exact absurd (by rw [hA, hB]; rfl) h2

/-- Witness for C7: the box fitted over (0,0,0) and (2,2,2), a ray from
(-1,-1,-1) along (1,1,1) through the fitted point (2,2,2) at parameter
3; the slab-condition half is witnessed on the same concrete hit. -/
theorem aabb_fit_intersect_round_trip_witness :
    ((Vec3Q.mk 2 2 2) ∈ [Vec3Q.mk 0 0 0, Vec3Q.mk 2 2 2] ∧
      (1 : ℚ) ≠ 0 ∧ (0 : ℚ) ≤ 3 ∧
      Vec3Q.mk 2 2 2 =
        (Vec3Q.mk (-1) (-1) (-1)) + Vec3Q.smul 3 (Vec3Q.mk 1 1 1) ∧
      (∃ t : ℚ,
        (fitList [Vec3Q.mk 0 0 0, Vec3Q.mk 2 2 2]).intersect
          ⟨⟨-1, -1, -1⟩, ⟨1, 1, 1⟩⟩ = some (F.num t) ∧ t ≤ 3)) ∧
    ((fitList [Vec3Q.mk 0 0 0, Vec3Q.mk 2 2 2]).intersect
        ⟨⟨-1, -1, -1⟩, ⟨1, 1, 1⟩⟩ = some (F.num 1) ∧
      (F.num 1 =
        ((fitList [Vec3Q.mk 0 0 0, Vec3Q.mk 2 2 2]).slabs
          ⟨⟨-1, -1, -1⟩, ⟨1, 1, 1⟩⟩).1 ∧
      F.flt ((fitList [Vec3Q.mk 0 0 0, Vec3Q.mk 2 2 2]).slabs
          ⟨⟨-1, -1, -1⟩, ⟨1, 1, 1⟩⟩).2
        ((fitList [Vec3Q.mk 0 0 0, Vec3Q.mk 2 2 2]).slabs
          ⟨⟨-1, -1, -1⟩, ⟨1, 1, 1⟩⟩).1 = false ∧
      (F.flt ((fitList [Vec3Q.mk 0 0 0, Vec3Q.mk 2 2 2]).slabs
          ⟨⟨-1, -1, -1⟩, ⟨1, 1, 1⟩⟩).1 (F.num 0) = false ∨
       F.flt ((fitList [Vec3Q.mk 0 0 0, Vec3Q.mk 2 2 2]).slabs
          ⟨⟨-1, -1, -1⟩, ⟨1, 1, 1⟩⟩).2 (F.num 0) = false))) :=
  ⟨⟨by decide!, by decide!, by decide!, by decide!,
    aabb_fit_intersect_round_trip.1 (Vec3Q.mk 0 0 0) [Vec3Q.mk 2 2 2]
      (Vec3Q.mk 2 2 2) ⟨⟨-1, -1, -1⟩, ⟨1, 1, 1⟩⟩ 3 (by decide!)
      (by decide!) (by decide!) (by decide!) (by decide!) (by decide!)⟩,
   by decide!,
   aabb_fit_intersect_round_trip.2 (fitList [Vec3Q.mk 0 0 0, Vec3Q.mk 2 2 2])
     ⟨⟨-1, -1, -1⟩, ⟨1, 1, 1⟩⟩ (F.num 1) (by decide!)⟩

/-- Embedding of `AABB4` (aabb4.h): four packed boxes. -/
structure AABB4f where
  b0 : AABBf
  b1 : AABBf
  b2 : AABBf
  b3 : AABBf
deriving DecidableEq

/-- Lane accessor of the packed boxes. -/
def AABB4f.lane (bb : AABB4f) : Fin 4 → AABBf
| 0 => bb.b0
| 1 => bb.b1
| 2 => bb.b2
| 3 => bb.b3

/-- The default-constructed `AABB4`: four unfit boxes. -/
def AABB4f.default4 : AABB4f := ⟨AABBf.init, AABBf.init, AABBf.init, AABBf.init⟩

/-- Lanewise `glm::min`: `y < x ? y : x`. -/
def fminG (x y : F) : F := if F.flt y x then y else x

/-- Lanewise `glm::max`: `x < y ? y : x`. -/
def fmaxG (x y : F) : F := if F.flt x y then y else x

/-- Embedding of `AABB4::intersect` (aabb4.cpp, lines 63-88): the slab
test applied to each lane, returning per-lane hit flags and near
times. -/
def AABB4f.intersect (bb : AABB4f) (r : RayQ) :
    (Fin 4 → Bool) × (Fin 4 → F) :=
  let t1 := fun i =>
    let b := bb.lane i
    let tminX := (b.bmin.x - F.num r.o.x) / F.num r.d.x
    let tmaxX := (b.bmax.x - F.num r.o.x) / F.num r.d.x
    let tminY := (b.bmin.y - F.num r.o.y) / F.num r.d.y
    let tmaxY := (b.bmax.y - F.num r.o.y) / F.num r.d.y
    let tminZ := (b.bmin.z - F.num r.o.z) / F.num r.d.z
    let tmaxZ := (b.bmax.z - F.num r.o.z) / F.num r.d.z
    fmaxG (fminG tminX tmaxX) (fmaxG (fminG tminY tmaxY) (fminG tminZ tmaxZ))
  let t2 := fun i =>
    let b := bb.lane i
    let tminX := (b.bmin.x - F.num r.o.x) / F.num r.d.x
    let tmaxX := (b.bmax.x - F.num r.o.x) / F.num r.d.x
    let tminY := (b.bmin.y - F.num r.o.y) / F.num r.d.y
    let tmaxY := (b.bmax.y - F.num r.o.y) / F.num r.d.y
    let tminZ := (b.bmin.z - F.num r.o.z) / F.num r.d.z
    let tmaxZ := (b.bmax.z - F.num r.o.z) / F.num r.d.z
    fminG (fmaxG tminX tmaxX) (fminG (fmaxG tminY tmaxY) (fmaxG tminZ tmaxZ))
  let isHit := fun i =>
    F.fle (t1 i) (t2 i) &&
      !(F.flt (t1 i) (F.num 0) && F.flt (t2 i) (F.num 0))
  (isHit, t1)

/-- One update of the inner argmin scan of `BVH::intersect` (material.h
lines 333-338): take lane j when it is hit and strictly closer than the
best so far. -/
def findBestStep (dist : Fin 4 → F) (hit : Fin 4 → Bool)
    (acc : Option (Fin 4) × F) (j : Fin 4) : Option (Fin 4) × F :=
  if hit j && F.flt (dist j) acc.2 then (some j, dist j) else acc

/-- The full argmin scan over the four lanes, starting from
`bestIdx = none, bestDist = +inf`. -/
def findBest (hit : Fin 4 → Bool) (dist : Fin 4 → F) :
    Option (Fin 4) × F :=
  ([0, 1, 2, 3] : List (Fin 4)).foldl (findBestStep dist hit) (none, F.pinf)

/-- Clearing the chosen lane's hit flag (`hitInfo.isHit[*bestIdx] =
false`). -/
def maskOff (hit : Fin 4 → Bool) (i : Fin 4) : Fin 4 → Bool :=
  fun j => if j = i then false else hit j

/-- The outer push loop of `BVH::intersect` (material.h lines 329-345):
up to four rounds, each selecting the closest remaining hit lane,
recording it, and clearing its flag; stops when no hit lane remains. -/
def pushOrderAux (dist : Fin 4 → F) : ℕ → (Fin 4 → Bool) → List (Fin 4 × F)
| 0, _ => []
| k + 1, hit =>
    match findBest hit dist with
    | (none, _) => []
    | (some i, d) => (i, d) :: pushOrderAux dist k (maskOff hit i)

/-- The sequence of (lane, near distance) pushes an internal node's
box-test result produces, in push order. -/
def pushOrder (hit : Fin 4 → Bool) (dist : Fin 4 → F) : List (Fin 4 × F) :=
  pushOrderAux dist 4 hit

/-- Embedding of `TraversalStack::push` (material.h lines 263-271): the
stack is LIFO; the head of the list is the top, i.e. the next entry
popped. -/
def stackPush (s : List (ℕ × F)) (e : ℕ × F) : List (ℕ × F) := e :: s

/-- The stack after pushing all hit children of an internal node with
first-child index `nodeIdx` (`stack.push({node.idx + *bestIdx,
bestDist})`). -/
def pushHitChildren (nodeIdx : ℕ) (hit : Fin 4 → Bool) (dist : Fin 4 → F)
    (stack : List (ℕ × F)) : List (ℕ × F) :=
  (pushOrder hit dist).foldl
    (fun s e => stackPush s (nodeIdx + e.1.val, e.2)) stack

/-- Invariant of the argmin scan: after processing `seen`, the
accumulator is the first-best hit lane among `seen`. -/
def scanInv (hit : Fin 4 → Bool) (dist : Fin 4 → F) (seen : List (Fin 4))
    (acc : Option (Fin 4) × F) : Prop :=
  match acc.1 with
  | none => acc.2 = F.pinf ∧
      ∀ j ∈ seen, hit j = true → F.flt (dist j) F.pinf = false
  | some i => acc.2 = dist i ∧ hit i = true ∧ i ∈ seen ∧
      (∀ j ∈ seen, hit j = true → F.flt (dist j) acc.2 = false) ∧
      (∀ j ∈ seen, hit j = true → dist j = acc.2 → i ≤ j)

theorem scanInv_step (hit : Fin 4 → Bool) (dist : Fin 4 → F)
    (seen : List (Fin 4)) (acc : Option (Fin 4) × F) (j : Fin 4)
    (horder : ∀ a ∈ seen, a < j) (h : scanInv hit dist seen acc) :
    scanInv hit dist (seen ++ [j]) (findBestStep dist hit acc j) := by
  unfold findBestStep
  by_cases hcond : (hit j && F.flt (dist j) acc.2) = true
  · rw [if_pos hcond]
    obtain ⟨hhitj, hltj⟩ := Bool.and_eq_true_iff.mp hcond
    unfold scanInv
    refine ⟨rfl, hhitj, by simp, ?_, ?_⟩
    · intro k hk hhitk
      rcases List.mem_append.mp hk with hk | hk
      · rcases hacc : acc.1 with _ | i
        · unfold scanInv at h
          rw [hacc] at h
          have hkpinf := h.2 k hk hhitk
          rw [h.1] at hltj
          exact F.flt_false_of_flt_of_not_flt hltj hkpinf
        · unfold scanInv at h
          rw [hacc] at h
          have hkb := h.2.2.2.1 k hk hhitk
          exact F.flt_false_of_flt_of_not_flt hltj hkb
      · have : k = j := by simpa using hk
        subst this
        by_cases hrefl : F.flt (dist k) (dist k) = true
        · exact absurd (F.flt_asymm hrefl) (by rw [hrefl]; simp)
        · exact Bool.eq_false_iff.mpr hrefl
    · intro k hk hhitk hdk
      rcases List.mem_append.mp hk with hk | hk
      · exfalso
        rcases hacc : acc.1 with _ | i
        · unfold scanInv at h
          rw [hacc] at h
          have hkpinf := h.2 k hk hhitk
          rw [h.1] at hltj
          rw [hdk] at hkpinf
          rw [hltj] at hkpinf
          exact Bool.noConfusion hkpinf
        · unfold scanInv at h
          rw [hacc] at h
          have hkb := h.2.2.2.1 k hk hhitk
          rw [hdk] at hkb
          rw [hltj] at hkb
          exact Bool.noConfusion hkb
      · have : k = j := by simpa using hk
        subst this
        exact le_refl _
  · rw [if_neg hcond]
    rcases hacc : acc.1 with _ | i
    · unfold scanInv at h ⊢
      rw [hacc] at h ⊢
      refine ⟨h.1, ?_⟩
      intro k hk hhitk
      rcases List.mem_append.mp hk with hk | hk
      · exact h.2 k hk hhitk
      · have : k = j := by simpa using hk
        subst this
        rw [← h.1]
        by_cases hfl : F.flt (dist k) acc.2 = true
        · exact absurd (by rw [hhitk, hfl]; rfl) hcond
        · exact Bool.eq_false_iff.mpr hfl
    · unfold scanInv at h ⊢
      rw [hacc] at h ⊢
      obtain ⟨hd, hhi, hmem, hall, htie⟩ := h
      refine ⟨hd, hhi, List.mem_append_left _ hmem, ?_, ?_⟩
      · intro k hk hhitk
        rcases List.mem_append.mp hk with hk | hk
        · exact hall k hk hhitk
        · have : k = j := by simpa using hk
          subst this
          by_cases hfl : F.flt (dist k) acc.2 = true
          · exact absurd (by rw [hhitk, hfl]; rfl) hcond
          · exact Bool.eq_false_iff.mpr hfl
      · intro k hk hhitk hdk
        rcases List.mem_append.mp hk with hk | hk
        · exact htie k hk hhitk hdk
        · have : k = j := by simpa using hk
          subst this
          exact le_of_lt (horder i hmem)

theorem scanInv_fold (hit : Fin 4 → Bool) (dist : Fin 4 → F) :
    ∀ (js : List (Fin 4)) (seen : List (Fin 4))
      (acc : Option (Fin 4) × F),
      (∀ a ∈ seen, ∀ b ∈ js, a < b) → List.Pairwise (· < ·) js →
      scanInv hit dist seen acc →
      scanInv hit dist (seen ++ js) (js.foldl (findBestStep dist hit) acc) := by
  intro js
  induction js with
  | nil => intro seen acc _ _ h; simpa using h
  | cons j t ih =>
      intro seen acc horder hpair h
      rw [List.foldl_cons]
      have hstep := scanInv_step hit dist seen acc j
        (fun a ha => horder a ha j (List.mem_cons_self j t)) h
      have horder2 : ∀ a ∈ seen ++ [j], ∀ b ∈ t, a < b := by
        intro a ha b hb
        rcases List.mem_append.mp ha with ha | ha
        · exact horder a ha b (List.mem_cons_of_mem j hb)
        · have : a = j := by simpa using ha
          subst this
          exact (List.pairwise_cons.mp hpair).1 b hb
      have := ih (seen ++ [j]) _ horder2 (List.pairwise_cons.mp hpair).2 hstep
      simpa [List.append_assoc] using this

theorem findBest_spec (hit : Fin 4 → Bool) (dist : Fin 4 → F)
    (i : Fin 4) (d : F) (h : findBest hit dist = (some i, d)) :
    d = dist i ∧ hit i = true ∧
    (∀ j, hit j = true → F.flt (dist j) d = false) ∧
    (∀ j, hit j = true → dist j = d → i ≤ j) := by
  have hinv := scanInv_fold hit dist [0, 1, 2, 3] [] (none, F.pinf)
    (by intro a ha; exact absurd ha (List.not_mem_nil a)) (by decide)
    (by unfold scanInv; exact ⟨rfl, fun j hj => absurd hj (List.not_mem_nil j)⟩)
  unfold findBest at h
  rw [h] at hinv
  unfold scanInv at hinv
  simp only at hinv
  obtain ⟨hd, hhi, _, hall, htie⟩ := hinv
  have hmem : ∀ j : Fin 4, j ∈ ([] ++ [0, 1, 2, 3] : List (Fin 4)) := by decide
  exact ⟨hd, hhi,
    fun j hj => hall j (hmem j) hj,
    fun j hj hdj => htie j (hmem j) hj hdj⟩

/-- Relation between consecutive pushes: the later push is not closer,
and on equal distance it has the larger lane index (near-to-far push
order, ties by lane). -/
def pushRel (a b : Fin 4 × F) : Prop :=
  F.flt b.2 a.2 = false ∧ (b.2 = a.2 → a.1 < b.1)

theorem pushOrderAux_head (dist : Fin 4 → F) (k : ℕ) (hit : Fin 4 → Bool)
    (e : Fin 4 × F) (t : List (Fin 4 × F))
    (h : pushOrderAux dist k hit = e :: t) :
    findBest hit dist = (some e.1, e.2) := by
  cases k with
  | zero => exact absurd h (by simp [pushOrderAux])
  | succ n =>
      unfold pushOrderAux at h
      rcases hfb : findBest hit dist with ⟨oi, d⟩
      rw [hfb] at h
      rcases oi with _ | i
      · simp at h
      · simp only [List.cons.injEq] at h
        rw [← h.1]

theorem pushOrderAux_chain (dist : Fin 4 → F) :
    ∀ (k : ℕ) (hit : Fin 4 → Bool),
      List.Chain' pushRel (pushOrderAux dist k hit) ∧
      (∀ e ∈ pushOrderAux dist k hit, hit e.1 = true ∧ e.2 = dist e.1) := by
  intro k
  induction k with
  | zero => intro hit; exact ⟨List.chain'_nil, by simp [pushOrderAux]⟩
  | succ n ih =>
      intro hit
      unfold pushOrderAux
      rcases hfb : findBest hit dist with ⟨oi, d⟩
      rcases oi with _ | i
      · exact ⟨List.chain'_nil, by simp⟩
      · obtain ⟨hd, hhit, hall, htie⟩ := findBest_spec hit dist i d hfb
        obtain ⟨ihc, ihm⟩ := ih (maskOff hit i)
        constructor
        · rw [List.chain'_cons']
          refine ⟨?_, ihc⟩
          intro b hb
          rcases hl : pushOrderAux dist n (maskOff hit i) with _ | ⟨e, t⟩
          · rw [hl] at hb
            simp at hb
          · rw [hl] at hb
            simp only [List.head?_cons, Option.mem_def, Option.some.injEq] at hb
            subst hb
            have hfb2 := pushOrderAux_head dist n (maskOff hit i) e t hl
            obtain ⟨hd2, hhit2, _, _⟩ := findBest_spec _ dist e.1 e.2 hfb2
            have hne : e.1 ≠ i := by
              intro hcontra
              rw [hcontra] at hhit2
              simp [maskOff] at hhit2
            have hhite : hit e.1 = true := by
              unfold maskOff at hhit2
              rw [if_neg hne] at hhit2
              exact hhit2
            constructor
            · rw [hd2]
              exact hall e.1 hhite
            · intro heq
              have := htie e.1 hhite (by rw [← hd2]; exact heq)
              exact lt_of_le_of_ne this (Ne.symm hne)
        · intro e he
          rcases List.mem_cons.mp he with rfl | he
          · exact ⟨hhit, hd⟩
          · obtain ⟨hm1, hm2⟩ := ihm e he
            have hmask : maskOff hit i e.1 = true := hm1
            unfold maskOff at hmask
            by_cases hei : e.1 = i
            · rw [if_pos hei] at hmask
              exact Bool.noConfusion hmask
            · rw [if_neg hei] at hmask
              exact ⟨hmask, hm2⟩

/-- C3 (amended): the hit children of an internal node are pushed in
near-to-far order of their near distances with ties broken by lane
index (each pushed entry is a hit lane with its box distance), but the
traversal stack is LIFO - the pushes sit on the stack in reverse - so
the children are popped (processed) in far-to-near order, the opposite
of the claimed closer-first processing. -/
theorem bvh_children_pushed_near_to_far (hit : Fin 4 → Bool)
    (dist : Fin 4 → F) (nodeIdx : ℕ) (stack : List (ℕ × F)) :
    List.Chain' pushRel (pushOrder hit dist) ∧
    (∀ e ∈ pushOrder hit dist, hit e.1 = true ∧ e.2 = dist e.1) ∧
    pushHitChildren nodeIdx hit dist stack =
      ((pushOrder hit dist).map
        (fun e => (nodeIdx + e.1.val, e.2))).reverse ++ stack := by
  obtain ⟨hc, hm⟩ := pushOrderAux_chain dist 4 hit
  refine ⟨hc, hm, ?_⟩
  unfold pushHitChildren stackPush
  generalize pushOrder hit dist = l
  induction l generalizing stack with
  | nil => rfl
  | cons a t ih =>
      rw [List.foldl_cons, List.map_cons, List.reverse_cons, ih]
      simp [List.append_assoc]

/-- Four packed boxes for the push-order evaluation: lanes 0 and 1 sit
on the ray diagonal at distances 1 and 2, lanes 2 and 3 miss. -/
def c3Boxes : AABB4f :=
  ⟨qbox ⟨1, 1, 1⟩ ⟨2, 2, 2⟩, qbox ⟨2, 2, 2⟩ ⟨3, 3, 3⟩,
   qbox ⟨5, 0, 0⟩ ⟨6, 1, 1⟩, qbox ⟨0, 5, 0⟩ ⟨1, 6, 1⟩⟩

/-- Counterexample for C3: for an internal node (children at 7..10)
whose box test hits lanes 0 and 1 at distances 1 < 2, the code pushes
near-to-far - (7, 1) then (8, 2) - so the top of the LIFO stack, i.e.
the next node popped, is the FARTHER child (8, 2); the closer child is
processed last, refuting the claim that closer children are popped
before farther ones. -/
theorem bvh_far_child_popped_first :
    pushOrder (AABB4f.intersect c3Boxes ⟨⟨0, 0, 0⟩, ⟨1, 1, 1⟩⟩).1
        (AABB4f.intersect c3Boxes ⟨⟨0, 0, 0⟩, ⟨1, 1, 1⟩⟩).2 =
      [(0, F.num 1), (1, F.num 2)] ∧
    pushHitChildren 7 (AABB4f.intersect c3Boxes ⟨⟨0, 0, 0⟩, ⟨1, 1, 1⟩⟩).1
        (AABB4f.intersect c3Boxes ⟨⟨0, 0, 0⟩, ⟨1, 1, 1⟩⟩).2 [] =
      [(8, F.num 2), (7, F.num 1)] ∧
    (pushHitChildren 7 (AABB4f.intersect c3Boxes ⟨⟨0, 0, 0⟩, ⟨1, 1, 1⟩⟩).1
        (AABB4f.intersect c3Boxes ⟨⟨0, 0, 0⟩, ⟨1, 1, 1⟩⟩).2 []).head? =
      some (8, F.num 2) ∧
    F.flt (F.num 1) (F.num 2) = true := by decide!

/-- Embedding of `BVH::Triangle` (bvh.h): three positions and the mesh
back-reference index. -/
structure TriQ where
  p0 : Vec3Q
  p1 : Vec3Q
  p2 : Vec3Q
  idx : ℕ
deriving DecidableEq

/-- Embedding of `BVH::Triangle::center`:
`(positions[0] + positions[1] + positions[2]) / 3`. -/
def TriQ.center (t : TriQ) : Vec3Q := (t.p0 + t.p1 + t.p2).sdiv 3

/-- Default triangle for out-of-range reads (never reached by in-bounds
builds, mirroring the in-bounds C++ spans). -/
def dTri : TriQ := ⟨⟨0, 0, 0⟩, ⟨0, 0, 0⟩, ⟨0, 0, 0⟩, 0⟩

/-- Growing a box by a triangle: `for (Vec3 position :
triangle.positions) bbox.fit(position)`. -/
def fitTri (b : AABBf) (t : TriQ) : AABBf := ((b.fit t.p0).fit t.p1).fit t.p2

/-- The `BVH::MaxNumTrianglesInLeaf` constant (bvh.h). -/
def MaxNumTrianglesInLeaf : ℕ := 4

/-- Embedding of the builder's `SplitInfo` (material.h lines 142-148). -/
structure SplitInfoF where
  axis : Fin 3
  position : F
  leftBBox : AABBf
  rightBBox : AABBf
  numLeft : ℕ
  numRight : ℕ
  leftCost : F
  rightCost : F
deriving DecidableEq

/-- One triangle of the `evaluateSplit` loop: grow the left or right
box by the triangle according to its center against the plane. -/
def evalSplitStep (triangles : List TriQ) (centers : List Vec3Q)
    (first : ℕ) (axis : Fin 3) (pos : F) (acc : AABBf × AABBf × ℕ)
    (i : ℕ) : AABBf × AABBf × ℕ :=
  let tri := triangles.getD (first + i) dTri
  let c := centers.getD (first + i) ⟨0, 0, 0⟩
  if F.flt (F.num (c.nth axis)) pos then
    (fitTri acc.1 tri, acc.2.1, acc.2.2 + 1)
  else
    (acc.1, fitTri acc.2.1 tri, acc.2.2)

/-- Embedding of `evaluateSplit` (material.h lines 150-172): classify
the `num` triangles starting at `first` against the plane, and compute
the two SAH side costs `n * halfArea(bbox)` (an empty side multiplies 0
by the `+inf` half-area of the unfit box, giving NaN exactly as the
floats do). -/
def evaluateSplit (triangles : List TriQ) (centers : List Vec3Q)
    (first num : ℕ) (axis : Fin 3) (pos : F) : SplitInfoF :=
  let r := (List.range num).foldl
    (evalSplitStep triangles centers first axis pos)
    (AABBf.init, AABBf.init, 0)
  let numLeft := r.2.2
  let numRight := num - numLeft
  { axis := axis, position := pos, leftBBox := r.1, rightBBox := r.2.1,
    numLeft := numLeft, numRight := numRight,
    leftCost := F.num (numLeft : ℚ) * r.1.halfArea,
    rightCost := F.num (numRight : ℚ) * r.2.1.halfArea }

/-- The candidate planes of `trySplitAndPartition`: 3 axes times
`NumSplits = 5` planes, in the loop order of the source. -/
def splitCandidates : List (Fin 3 × ℕ) :=
  ([0, 1, 2] : List (Fin 3)).flatMap
    (fun ax => (List.range 5).map (fun k => (ax, k)))

/-- The candidate scan of `trySplitAndPartition` (material.h lines
225-241): keep the minimum-cost candidate strictly beating the running
best cost, seeded with the node's own cost. -/
def tryFindBestSplit (getBoundsSize getBoundsMin : Fin 3 → F)
    (first num : ℕ) (triangles : List TriQ) (centers : List Vec3Q)
    (bestCost : F) : Option SplitInfoF :=
  (splitCandidates.foldl
    (fun (acc : F × Option SplitInfoF) c =>
      let splitSeparation := getBoundsSize c.1 / F.num 6
      let splitPosition :=
        getBoundsMin c.1 + F.num ((c.2 : ℚ) + 1) * splitSeparation
      let info := evaluateSplit triangles centers first num c.1 splitPosition
      let cost := info.leftCost + info.rightCost
      if F.flt cost acc.1 then (cost, some info) else acc)
    (bestCost, none)).2

/-- In-bounds element swap, `std::swap` on the flat arrays. -/
def listSwap {α : Type} (l : List α) (i j : ℕ) : List α :=
  match l.get? i, l.get? j with
  | some a, some b => (l.set i b).set j a
  | _, _ => l

/-- Embedding of the in-place partition pass of `trySplitAndPartition`
(material.h lines 244-251): swap triangles (and centers) with center
below the plane to the front of the range. -/
def partitionTriangles (triangles : List TriQ) (centers : List Vec3Q)
    (first num : ℕ) (axis : Fin 3) (pos : F) :
    List TriQ × List Vec3Q :=
  let r := (List.range num).foldl
    (fun (acc : List TriQ × List Vec3Q × ℕ) i =>
      let c := acc.2.1.getD (first + i) ⟨0, 0, 0⟩
      if F.flt (F.num (c.nth axis)) pos then
        (listSwap acc.1 (first + i) (first + acc.2.2),
         listSwap acc.2.1 (first + i) (first + acc.2.2),
         acc.2.2 + 1)
      else acc)
    (triangles, centers, 0)
  (r.1, r.2.1)

/-- Embedding of `trySplitAndPartition` (material.h lines 208-254):
scan the candidates and, when one beats the cost, partition the range
in place. -/
def trySplitAndPartition (getBoundsSize getBoundsMin : Fin 3 → F)
    (first num : ℕ) (triangles : List TriQ) (centers : List Vec3Q)
    (bestCost : F) : Option SplitInfoF × List TriQ × List Vec3Q :=
  match tryFindBestSplit getBoundsSize getBoundsMin first num triangles
      centers bestCost with
  | none => (none, triangles, centers)
  | some info =>
      let p := partitionTriangles triangles centers first num info.axis
        info.position
      (some info, p.1, p.2)

/-- Embedding of `BVH::Node` (bvh.h). -/
structure NodeF where
  childBounds : AABB4f
  idx : ℕ
  numTriangles : ℕ
deriving DecidableEq

/-- Embedding of `Node::isLeaf`: nonzero triangle count. -/
def NodeF.isLeaf (n : NodeF) : Bool := n.numTriangles != 0

/-- Default node for out-of-range reads. -/
def dNode : NodeF := ⟨AABB4f.default4, 0, 0⟩

/-- The builder state: the triangle and center arrays being partitioned
in place, the growing node array, and the root bounds. -/
structure BVHState where
  triangles : List TriQ
  centers : List Vec3Q
  nodes : List NodeF
  rootBounds : AABBf
deriving DecidableEq

/-- Resolution of the node index at the top of `BVH::split` (material.h
lines 355-358): the parent's first-child index plus the child slot, or
0 for the root. -/
def splitNodeIdx (st : BVHState) (parentNodeIdx : Option ℕ)
    (childIdx : Fin 4) : ℕ :=
  match parentNodeIdx with
  | some p => (st.nodes.getD p dNode).idx + childIdx.val
  | none => 0

/-- The node-array surgery of a successful 4-way split (material.h
lines 405-431): record the four child bounds on the parent, append the
four children (contiguous, starting at the old node-array size) with
their triangle ranges, then mark the parent internal
(`numTriangles = 0`) pointing at its first child. -/
def makeInternal (st : BVHState) (nodeIdx : ℕ)
    (ls rs : SplitInfoF) : BVHState :=
  let node := st.nodes.getD nodeIdx dNode
  let firstChildIdx := st.nodes.length
  let nodes1 := st.nodes.set nodeIdx
    { node with childBounds := ⟨ls.leftBBox, ls.rightBBox,
        rs.leftBBox, rs.rightBBox⟩ }
  let nodes2 := nodes1 ++
    [⟨AABB4f.default4, node.idx, ls.numLeft⟩,
     ⟨AABB4f.default4, node.idx + ls.numLeft, ls.numRight⟩,
     ⟨AABB4f.default4, node.idx + ls.numLeft + ls.numRight, rs.numLeft⟩,
     ⟨AABB4f.default4, node.idx + ls.numLeft + ls.numRight + rs.numLeft,
       rs.numRight⟩]
  let nodes3 := nodes2.set nodeIdx
    ⟨(nodes2.getD nodeIdx dNode).childBounds, firstChildIdx, 0⟩
  { st with nodes := nodes3 }

/-- The bound accessors handed to `trySplitAndPartition` by `BVH::split`
(material.h lines 364-374): the child lane of the parent's packed
bounds, or the root bounds for the root call. -/
def splitNodeBounds (st : BVHState) (parentNodeIdx : Option ℕ)
    (childIdx : Fin 4) : (Fin 3 → F) × (Fin 3 → F) :=
  match parentNodeIdx with
  | some p =>
      (fun ax =>
        (((st.nodes.getD p dNode).childBounds).lane childIdx).getSizeAx ax,
       fun ax =>
        (((st.nodes.getD p dNode).childBounds).lane childIdx).getMinAx ax)
  | none =>
      (fun ax => st.rootBounds.getSizeAx ax,
       fun ax => st.rootBounds.getMinAx ax)

/-- Embedding of `BVH::split` (material.h lines 352-437), with a fuel
parameter standing in for the structural recursion (each successful
split strictly shrinks the child ranges, so the fuel `count + 1` used
by `buildBVH` is never exhausted).  A node of at most
`MaxNumTrianglesInLeaf` triangles is kept as a leaf; otherwise three
nested SAH partitions are attempted and, if their total cost beats the
node's, the node becomes internal with exactly four appended
children. -/
def splitGo : ℕ → Option ℕ → Fin 4 → F → BVHState → BVHState
| 0, _, _, _, st => st
| fuel + 1, parentNodeIdx, childIdx, nodeCost, st =>
  let nodeIdx := splitNodeIdx st parentNodeIdx childIdx
  let node := st.nodes.getD nodeIdx dNode
  if node.numTriangles ≤ MaxNumTrianglesInLeaf then st
  else
    let getSize := (splitNodeBounds st parentNodeIdx childIdx).1
    let getMin := (splitNodeBounds st parentNodeIdx childIdx).2
    match trySplitAndPartition getSize getMin node.idx node.numTriangles
        st.triangles st.centers nodeCost with
    | (none, tris1, cents1) =>
        { st with triangles := tris1, centers := cents1 }
    | (some bestInitialSplit, tris1, cents1) =>
        match trySplitAndPartition
            (fun ax => bestInitialSplit.leftBBox.getSizeAx ax)
            (fun ax => bestInitialSplit.leftBBox.getMinAx ax)
            node.idx bestInitialSplit.numLeft tris1 cents1 nodeCost with
        | (none, tris2, cents2) =>
            { st with triangles := tris2, centers := cents2 }
        | (some bestLeftSplit, tris2, cents2) =>
            match trySplitAndPartition
                (fun ax => bestInitialSplit.rightBBox.getSizeAx ax)
                (fun ax => bestInitialSplit.rightBBox.getMinAx ax)
                (node.idx + bestInitialSplit.numLeft)
                bestInitialSplit.numRight tris2 cents2 nodeCost with
            | (none, tris3, cents3) =>
                { st with triangles := tris3, centers := cents3 }
            | (some bestRightSplit, tris3, cents3) =>
                let totalCost :=
                  bestLeftSplit.leftCost + bestLeftSplit.rightCost +
                  bestRightSplit.leftCost + bestRightSplit.rightCost
                let st3 :=
                  { st with triangles := tris3, centers := cents3 }
                if F.flt nodeCost totalCost then st3
                else
                  let st4 := makeInternal st3 nodeIdx bestLeftSplit
                    bestRightSplit
                  let st5 := splitGo fuel (some nodeIdx) 0
                    bestLeftSplit.leftCost st4
                  let st6 := splitGo fuel (some nodeIdx) 1
                    bestLeftSplit.rightCost st5
                  let st7 := splitGo fuel (some nodeIdx) 2
                    bestRightSplit.leftCost st6
                  splitGo fuel (some nodeIdx) 3
                    bestRightSplit.rightCost st7

/-- Embedding of the `BVH` constructor (material.h lines 285-300): root
node over all `count` triangles, root bounds fitted over every
position, centers precomputed, then the recursive split seeded with
`count * halfArea(rootBounds)`. -/
def buildBVH (input : List TriQ) : BVHState :=
  let rootBounds := input.foldl fitTri AABBf.init
  let st0 : BVHState :=
    { triangles := input,
      centers := input.map TriQ.center,
      nodes := [⟨AABB4f.default4, 0, input.length⟩],
      rootBounds := rootBounds }
  splitGo (input.length + 1) none 0
    (F.num (input.length : ℚ) * rootBounds.halfArea) st0

/-- Well-formedness of the node array: every internal node
(`numTriangles = 0`) has its four children inside the array,
contiguously at `idx .. idx+3`. -/
def nodesWF (ns : List NodeF) : Prop :=
  ∀ n ∈ ns, n.numTriangles = 0 → n.idx + 4 ≤ ns.length

theorem halfArea_init : AABBf.init.halfArea = F.pinf := rfl

theorem num_zero_fmul_pinf : F.num ((0 : ℕ) : ℚ) * F.pinf = F.nan := by decide!

theorem evalSplitFold_inv (triangles : List TriQ) (centers : List Vec3Q)
    (first : ℕ) (axis : Fin 3) (pos : F) :
    ∀ (js : List ℕ) (acc : AABBf × AABBf × ℕ) (p : ℕ),
      acc.2.2 ≤ p → (acc.2.2 = 0 → acc.1 = AABBf.init) →
      (acc.2.2 = p → acc.2.1 = AABBf.init) →
      (js.foldl (evalSplitStep triangles centers first axis pos) acc).2.2 ≤
          p + js.length ∧
      ((js.foldl (evalSplitStep triangles centers first axis pos) acc).2.2 = 0 →
        (js.foldl (evalSplitStep triangles centers first axis pos) acc).1 =
          AABBf.init) ∧
      ((js.foldl (evalSplitStep triangles centers first axis pos) acc).2.2 =
          p + js.length →
        (js.foldl (evalSplitStep triangles centers first axis pos) acc).2.1 =
          AABBf.init) := by
  intro js
  induction js with
  | nil => intro acc p h1 h2 h3; exact ⟨by simpa using h1, h2, by simpa using h3⟩
  | cons j t ih =>
      intro acc p h1 h2 h3
      rw [List.foldl_cons]
      have hstep : ∀ r : AABBf × AABBf × ℕ,
          r = evalSplitStep triangles centers first axis pos acc j →
          r.2.2 ≤ p + 1 ∧ (r.2.2 = 0 → r.1 = AABBf.init) ∧
          (r.2.2 = p + 1 → r.2.1 = AABBf.init) := by
        intro r hr
        unfold evalSplitStep at hr
        by_cases hc : F.flt (F.num ((centers.getD (first + j)
            ⟨0, 0, 0⟩).nth axis)) pos = true
        · rw [if_pos hc] at hr
          subst hr
          refine ⟨by simpa using h1, by simp, ?_⟩
          intro hq
          simp only at hq ⊢
          exact h3 (by omega)
        · rw [if_neg hc] at hr
          subst hr
          exact ⟨by simpa using le_trans h1 (Nat.le_succ p), h2,
            fun hq => absurd hq (by simp only; omega)⟩
      have hrec := hstep _ rfl
      have := ih (evalSplitStep triangles centers first axis pos acc j) (p + 1)
        hrec.1 hrec.2.1 hrec.2.2
      simp only [List.length_cons] at this ⊢
      exact ⟨by omega, this.2.1, fun hq => this.2.2 (by omega)⟩

theorem evaluateSplit_spec (triangles : List TriQ) (centers : List Vec3Q)
    (first num : ℕ) (axis : Fin 3) (pos : F) :
    (evaluateSplit triangles centers first num axis pos).numLeft ≤ num ∧
    ((evaluateSplit triangles centers first num axis pos).numLeft = 0 →
      (evaluateSplit triangles centers first num axis pos).leftCost =
        F.nan) ∧
    ((evaluateSplit triangles centers first num axis pos).numLeft = num →
      (evaluateSplit triangles centers first num axis pos).rightCost =
        F.nan) := by
  have h := evalSplitFold_inv triangles centers first axis pos
    (List.range num) (AABBf.init, AABBf.init, 0) 0 (le_refl 0)
    (fun _ => rfl) (fun _ => rfl)
  rw [List.length_range] at h
  unfold evaluateSplit
  simp only
  refine ⟨by omega, ?_, ?_⟩
  · intro hzero
    rw [hzero, (h.2.1 hzero), halfArea_init]
    exact num_zero_fmul_pinf
  · intro hfull
    rw [h.2.2 (by omega), halfArea_init]
    have : num - (List.foldl (evalSplitStep triangles centers first axis pos)
        (AABBf.init, AABBf.init, 0) (List.range num)).2.2 = 0 := by omega
    rw [this]
    exact num_zero_fmul_pinf

theorem evaluateSplit_numRight (triangles : List TriQ)
    (centers : List Vec3Q) (first num : ℕ) (axis : Fin 3) (pos : F) :
    (evaluateSplit triangles centers first num axis pos).numRight =
      num - (evaluateSplit triangles centers first num axis pos).numLeft :=
  rfl

theorem tryFindBestSplit_some (getBoundsSize getBoundsMin : Fin 3 → F)
    (first num : ℕ) (triangles : List TriQ) (centers : List Vec3Q)
    (bestCost : F) (info : SplitInfoF)
    (h : tryFindBestSplit getBoundsSize getBoundsMin first num triangles
        centers bestCost = some info) :
    1 ≤ info.numLeft ∧ 1 ≤ info.numRight := by
  unfold tryFindBestSplit at h
  suffices hsuf : ∀ (cs : List (Fin 3 × ℕ)) (acc : F × Option SplitInfoF),
      (∀ i, acc.2 = some i → 1 ≤ i.numLeft ∧ 1 ≤ i.numRight) →
      ∀ i, (cs.foldl (fun (acc : F × Option SplitInfoF) c =>
        let splitSeparation := getBoundsSize c.1 / F.num 6
        let splitPosition :=
          getBoundsMin c.1 + F.num ((c.2 : ℚ) + 1) * splitSeparation
        let info := evaluateSplit triangles centers first num c.1 splitPosition
        let cost := info.leftCost + info.rightCost
        if F.flt cost acc.1 then (cost, some info) else acc) acc).2 = some i →
        1 ≤ i.numLeft ∧ 1 ≤ i.numRight by
    exact hsuf splitCandidates (bestCost, none) (by simp) info h
  intro cs
  induction cs with
  | nil => intro acc hacc i hi; exact hacc i hi
  | cons c t ih =>
      intro acc hacc i hi
      rw [List.foldl_cons] at hi
      refine ih _ ?_ i hi
      intro j hj
      simp only at hj
      by_cases hc : F.flt
          ((evaluateSplit triangles centers first num c.1
            (getBoundsMin c.1 + F.num ((c.2 : ℚ) + 1) *
              (getBoundsSize c.1 / F.num 6))).leftCost +
           (evaluateSplit triangles centers first num c.1
            (getBoundsMin c.1 + F.num ((c.2 : ℚ) + 1) *
              (getBoundsSize c.1 / F.num 6))).rightCost) acc.1 = true
      · rw [if_pos hc] at hj
        simp only [Option.some.injEq] at hj
        subst hj
        obtain ⟨hle, hzl, hzr⟩ := evaluateSplit_spec triangles centers first
          num c.1 (getBoundsMin c.1 + F.num ((c.2 : ℚ) + 1) *
            (getBoundsSize c.1 / F.num 6))
        have hnr := evaluateSplit_numRight triangles centers first num c.1
          (getBoundsMin c.1 + F.num ((c.2 : ℚ) + 1) *
            (getBoundsSize c.1 / F.num 6))
        have hnn : (evaluateSplit triangles centers first num c.1
            (getBoundsMin c.1 + F.num ((c.2 : ℚ) + 1) *
              (getBoundsSize c.1 / F.num 6))).leftCost ≠ F.nan ∧
            (evaluateSplit triangles centers first num c.1
            (getBoundsMin c.1 + F.num ((c.2 : ℚ) + 1) *
              (getBoundsSize c.1 / F.num 6))).rightCost ≠ F.nan := by
          have hsum := F.flt_ne_nan_left hc
          constructor
          · intro hl
            exact hsum (F.fadd_eq_nan_left hl)
          · intro hr
            exact hsum (F.fadd_eq_nan_right hr)
        constructor
        · by_contra hl
          exact hnn.1 (hzl (by omega))
        · by_contra hr
          exact hnn.2 (hzr (by omega))
      · rw [if_neg hc] at hj
        exact hacc j hj

theorem trySplitAndPartition_some_pos (getBoundsSize getBoundsMin : Fin 3 → F)
    (first num : ℕ) (triangles : List TriQ) (centers : List Vec3Q)
    (bestCost : F) (info : SplitInfoF) (t : List TriQ) (c : List Vec3Q)
    (h : trySplitAndPartition getBoundsSize getBoundsMin first num triangles
        centers bestCost = (some info, t, c)) :
    1 ≤ info.numLeft ∧ 1 ≤ info.numRight := by
  unfold trySplitAndPartition at h
  rcases hfb : tryFindBestSplit getBoundsSize getBoundsMin first num
      triangles centers bestCost with _ | i
  · rw [hfb] at h
    simp at h
  · rw [hfb] at h
    simp only [Prod.mk.injEq, Option.some.injEq] at h
    obtain ⟨rfl, -⟩ := h
    exact tryFindBestSplit_some getBoundsSize getBoundsMin first num
      triangles centers bestCost _ hfb

theorem nodesWF_set (ns : List NodeF) (i : ℕ) (n : NodeF) (h : nodesWF ns)
    (hn : i < ns.length → n.numTriangles = 0 → n.idx + 4 ≤ ns.length) :
    nodesWF (ns.set i n) := by
  intro m hm h0
  rw [List.length_set]
  by_cases hi : i < ns.length
  · rcases List.mem_or_eq_of_mem_set hm with hm2 | rfl
    · exact h m hm2 h0
    · exact hn hi h0
  · rw [List.set_eq_of_length_le (by omega)] at hm
    exact h m hm h0

theorem nodesWF_append (ns cs : List NodeF) (h : nodesWF ns)
    (hcs : ∀ c ∈ cs, c.numTriangles ≠ 0) : nodesWF (ns ++ cs) := by
  intro n hn h0
  rcases List.mem_append.mp hn with hn2 | hn2
  · have := h n hn2 h0
    rw [List.length_append]
    omega
  · exact absurd h0 (hcs n hn2)

theorem makeInternal_wf (st : BVHState) (nodeIdx : ℕ) (ls rs : SplitInfoF)
    (h : nodesWF st.nodes) (hl0 : 1 ≤ ls.numLeft) (hl1 : 1 ≤ ls.numRight)
    (hr0 : 1 ≤ rs.numLeft) (hr1 : 1 ≤ rs.numRight) :
    nodesWF (makeInternal st nodeIdx ls rs).nodes := by
  simp only [makeInternal]
  apply nodesWF_set
  · apply nodesWF_append
    · apply nodesWF_set _ _ _ h
      intro hi h0
      have hget : st.nodes.getD nodeIdx dNode ∈ st.nodes := by
        rw [List.getD_eq_getElem st.nodes dNode hi]
        exact List.getElem_mem hi
      exact h (st.nodes.getD nodeIdx dNode) hget h0
    · intro c hc
      simp only [List.mem_cons, List.not_mem_nil, or_false] at hc
      rcases hc with rfl | rfl | rfl | rfl
      · simp only
        omega
      · simp only
        omega
      · simp only
        omega
      · simp only
        omega
  · intro hi _
    rw [List.length_append, List.length_set]
    simp only [List.length_cons, List.length_nil]
    omega

theorem splitGo_preserves_wf : ∀ (fuel : ℕ) (parentNodeIdx : Option ℕ)
    (childIdx : Fin 4) (nodeCost : F) (st : BVHState),
    nodesWF st.nodes →
    nodesWF (splitGo fuel parentNodeIdx childIdx nodeCost st).nodes := by
  intro fuel
  induction fuel with
  | zero => intro p c cost st h; exact h
  | succ n ih =>
      intro p c cost st h
      simp only [splitGo]
      split
      · exact h
      · split
        · exact h
        · next bestInitialSplit tris1 cents1 heq1 =>
            split
            · exact h
            · next bestLeftSplit tris2 cents2 heq2 =>
                split
                · exact h
                · next bestRightSplit tris3 cents3 heq3 =>
                    split
                    · exact h
                    · have hls := trySplitAndPartition_some_pos _ _ _ _ _ _ _
                        _ _ _ heq2
                      have hrs := trySplitAndPartition_some_pos _ _ _ _ _ _ _
                        _ _ _ heq3
                      apply ih
                      apply ih
                      apply ih
                      apply ih
                      exact makeInternal_wf _ _ _ _ h hls.1 hls.2 hrs.1 hrs.2

/-- C2 (amended): after BVH construction over any nonempty triangle
slice, every internal node (`numTriangles = 0`) has its exactly four
children stored contiguously at valid indices `idx .. idx+3` of the
node array; and a node holding at most `MaxLeaf = 4` triangles is never
split (the guard returns immediately).  A leaf, however, may hold more
than 4 triangles when no SAH candidate beats the node's own cost. -/
theorem bvh_internal_nodes_have_four_children :
    (∀ input : List TriQ, 1 ≤ input.length →
      nodesWF (buildBVH input).nodes) ∧
    (∀ (fuel : ℕ) (parentNodeIdx : Option ℕ) (childIdx : Fin 4)
      (nodeCost : F) (st : BVHState),
      (st.nodes.getD (splitNodeIdx st parentNodeIdx childIdx)
        dNode).numTriangles ≤ MaxNumTrianglesInLeaf →
      splitGo (fuel + 1) parentNodeIdx childIdx nodeCost st = st) := by
  constructor
  · intro input hlen
    unfold buildBVH
    apply splitGo_preserves_wf
    intro n hn h0
    simp only [List.mem_singleton] at hn
    subst hn
    simp only at h0
    simp only [List.length_singleton]
    omega
  · intro fuel p c cost st hle
    simp only [splitGo]
    rw [if_pos hle]

/-- Five coincident triangles spanning a nondegenerate box: every SAH
candidate plane puts all five centers on one side, so the empty side's
cost is `0 * inf = NaN`, no candidate ever beats the node cost, and the
root is kept as a leaf. -/
def c2Tris : List TriQ :=
  [⟨⟨0, 0, 0⟩, ⟨1, 0, 0⟩, ⟨0, 1, 0⟩, 0⟩,
   ⟨⟨0, 0, 0⟩, ⟨1, 0, 0⟩, ⟨0, 1, 0⟩, 1⟩,
   ⟨⟨0, 0, 0⟩, ⟨1, 0, 0⟩, ⟨0, 1, 0⟩, 2⟩,
   ⟨⟨0, 0, 0⟩, ⟨1, 0, 0⟩, ⟨0, 1, 0⟩, 3⟩,
   ⟨⟨0, 0, 0⟩, ⟨1, 0, 0⟩, ⟨0, 1, 0⟩, 4⟩]

/-- Counterexample for C2: building the BVH over five identical
triangles leaves the root a single leaf holding 5 > MaxLeaf = 4
triangles, refuting the claimed leaf bound. -/
theorem bvh_leaf_holds_five_triangles :
    (buildBVH c2Tris).nodes.length = 1 ∧
    ((buildBVH c2Tris).nodes.getD 0 dNode).numTriangles = 5 ∧
    ((buildBVH c2Tris).nodes.getD 0 dNode).isLeaf = true ∧
    ¬((buildBVH c2Tris).nodes.getD 0 dNode).numTriangles ≤
      MaxNumTrianglesInLeaf := by decide!

/-- Witness for C2: the one-triangle build satisfies the internal-node
invariant, and a root node holding one triangle is never split. -/
theorem bvh_internal_nodes_have_four_children_witness :
    1 ≤ ([⟨⟨0, 0, 0⟩, ⟨1, 0, 0⟩, ⟨0, 1, 0⟩, 0⟩] : List TriQ).length ∧
    nodesWF (buildBVH [⟨⟨0, 0, 0⟩, ⟨1, 0, 0⟩, ⟨0, 1, 0⟩, 0⟩]).nodes ∧
    ((buildBVH [⟨⟨0, 0, 0⟩, ⟨1, 0, 0⟩, ⟨0, 1, 0⟩, 0⟩]).nodes.getD
      (splitNodeIdx (buildBVH [⟨⟨0, 0, 0⟩, ⟨1, 0, 0⟩, ⟨0, 1, 0⟩, 0⟩]) none 0)
      dNode).numTriangles ≤ MaxNumTrianglesInLeaf ∧
    splitGo 1 none 0 (F.num 0)
        (buildBVH [⟨⟨0, 0, 0⟩, ⟨1, 0, 0⟩, ⟨0, 1, 0⟩, 0⟩]) =
      buildBVH [⟨⟨0, 0, 0⟩, ⟨1, 0, 0⟩, ⟨0, 1, 0⟩, 0⟩] :=
  ⟨by decide!,
   bvh_internal_nodes_have_four_children.1
     [⟨⟨0, 0, 0⟩, ⟨1, 0, 0⟩, ⟨0, 1, 0⟩, 0⟩] (by decide!),
   by decide!,
   bvh_internal_nodes_have_four_children.2 0 none 0 (F.num 0)
     (buildBVH [⟨⟨0, 0, 0⟩, ⟨1, 0, 0⟩, ⟨0, 1, 0⟩, 0⟩]) (by decide!)⟩
